import Mathlib

/-!
Verification of the AttackMate execution core against its specification.

Shallow embedding of two Python modules:

* `src/attackmate/baseexecutor.py` — the command-execution lifecycle engine
  (`BaseExecutor`): substitution, dispatch to an injected single-attempt
  primitive, result classification (`exit_on_error`, `error_if`,
  `error_if_not`), and bounded retry (`loop_if`, `loop_if_not`,
  `variable_to_int`).
* `src/attackmate/msfsessionstore.py` — the session-reconciliation store
  (`MsfSessionStore`): queue drain, lookup by name against a live registry,
  and the wait/registration paths.

Python `exit(1)` and an uncaught `ExecException` both end the interpreter
process with exit status 1; the embedding records them as distinct
`Outcome`s.  Recursion (`exec` re-invoked from `loop_if`/`loop_if_not`) and
the session-store polling loops are made total with an explicit fuel
parameter; running out of fuel is a distinct outcome that the theorems avoid
by supplying enough fuel.
-/

namespace AttackMate

/-! ### Python dict primitives

Python `dict` assignment updates the (unique) entry for a key in place, or
appends a new entry preserving insertion order; lookup returns the first
entry.  `setattr`/`getattr` on plain objects behave the same way on the
attribute table. -/

def pyDictGet {α : Type} : List (String × α) → String → Option α
  | [], _ => none
  | (k1, v1) :: rest, k => if k1 = k then some v1 else pyDictGet rest k

def pyDictSet {α : Type} : List (String × α) → String → α → List (String × α)
  | [], k, v => [(k, v)]
  | (k1, v1) :: rest, k, v =>
    if k1 = k then (k1, v) :: rest else (k1, v1) :: pyDictSet rest k v

theorem pyDictGet_set_self {α : Type} (d : List (String × α)) (k : String) (v : α) :
    pyDictGet (pyDictSet d k v) k = some v := by
  induction d with
  | nil => simp [pyDictGet, pyDictSet]
  | cons hd tl ih =>
    obtain ⟨k1, v1⟩ := hd
    by_cases hk : k1 = k
    · simp [pyDictGet, pyDictSet, hk]
    · simp [pyDictGet, pyDictSet, hk, ih]

theorem pyDictGet_set_ne {α : Type} (d : List (String × α)) (k k' : String) (v : α)
    (h : k' ≠ k) : pyDictGet (pyDictSet d k v) k' = pyDictGet d k' := by
  have hks : k ≠ k' := fun h' => h h'.symm
  induction d with
  | nil => simp [pyDictGet, pyDictSet, hks]
  | cons hd tl ih =>
    obtain ⟨k1, v1⟩ := hd
    by_cases hk : k1 = k
    · subst hk
      simp [pyDictSet, pyDictGet, hks]
    · simp [pyDictSet, pyDictGet, hk, ih]

theorem pyDictSet_mem {α : Type} {d : List (String × α)} {k : String} {v : α}
    {kv : String × α} (h : kv ∈ pyDictSet d k v) : kv.2 = v ∨ kv ∈ d := by
  induction d with
  | nil =>
    simp [pyDictSet] at h
    subst h; exact Or.inl rfl
  | cons hd tl ih =>
    obtain ⟨k1, v1⟩ := hd
    by_cases hk : k1 = k
    · simp [pyDictSet, hk] at h
      rcases h with h | h
      · subst h; exact Or.inl rfl
      · exact Or.inr (List.mem_cons_of_mem _ h)
    · simp [pyDictSet, hk] at h
      rcases h with h | h
      · subst h; exact Or.inr (List.mem_cons_self _ _)
      · rcases ih h with h' | h'
        · exact Or.inl h'
        · exact Or.inr (List.mem_cons_of_mem _ h')

/-! ### Numeric parsing — `BaseExecutor.variable_to_int`

`str.isnumeric` (restricted to ASCII digits, the case the playbooks use)
and `int(...)` on such a string.  A non-numeric value raises
`ExecException`, modelled as `Except.error` with the exact message. -/

def pyIsNumeric (s : String) : Bool :=
  !s.data.isEmpty && s.data.all Char.isDigit

def pyInt (s : String) : Nat :=
  s.data.foldl (fun acc c => acc * 10 + (c.toNat - 48)) 0

def variable_to_int (variablename value : String) : Except String Nat :=
  if pyIsNumeric value then Except.ok (pyInt value)
  else Except.error ("Variable " ++ variablename ++ " has not a numeric value: " ++ value)

/-! ### The execution engine — `BaseExecutor` -/

/-- `Result`: captured standard output and return code. -/
structure Result where
  stdout : String
  returncode : Int
deriving DecidableEq

/-- `BaseCommand`: the command-descriptor fields the engine reads. -/
structure BaseCommand where
  cmd : String
  save : Option String
  exit_on_error : Bool
  error_if : Option String
  error_if_not : Option String
  loop_if : Option String
  loop_if_not : Option String
  loop_count : String
deriving DecidableEq

/-- Injected collaborators: `re.search` (pattern, text ↦ does a match
exist) and the backend primitive `_exec_cmd`, determinised by invocation
index (`Except.error msg` models it raising `ExecException(msg)`). -/
structure Env where
  research : String → String → Bool
  prim : Nat → Except String Result

/-- Observable engine state: the run counter plus event counters and the
variable-store / file-write logs the claims talk about. -/
structure St where
  runCount : Nat
  primCalls : Nat
  loopEvals : Nat
  errEvals : Nat
  retrySleeps : Nat
  varSets : List (String × String)
  saves : List (String × String)
deriving DecidableEq

/-- Why `exec` stopped: normal return, `exit(1)` from one of the four fatal
sites, an `ExecException` escaping (from `variable_to_int`), or fuel
exhaustion (an artefact of the embedding, never reached in the theorems). -/
inductive ExitReason where
  | exitOnError
  | errorIf
  | errorIfNot
  | loopIfExhausted
  | loopIfNotExhausted
deriving DecidableEq

inductive Outcome where
  | normal
  | exited (reason : ExitReason)
  | raised (msg : String)
  | fuelOut
deriving DecidableEq

/-- CPython terminates the process with status 1 both on `exit(1)` and on an
uncaught exception reaching the top of the interpreter. -/
def fatalExitCode : Outcome → Option Nat
  | Outcome.exited _ => some 1
  | Outcome.raised _ => some 1
  | _ => none

/-- The `except ExecException` clause of `exec`: a raised failure becomes
`Result(error, 1)`. -/
def catchResult : Except String Result → Result
  | Except.ok r => r
  | Except.error msg => ⟨msg, 1⟩

def attemptResult (env : Env) (k : Nat) : Result :=
  catchResult (env.prim k)

/-- `set_variable("RESULT_STDOUT", ...)` and `set_variable("RESULT_RETURNCODE", ...)`. -/
def publishResult (r : Result) (st : St) : St :=
  { st with varSets := st.varSets ++
      [("RESULT_STDOUT", r.stdout), ("RESULT_RETURNCODE", toString r.returncode)] }

/-- `save_output`: write the output to `command.save` when it is set. -/
def saveOutput (command : BaseCommand) (r : Result) (st : St) : St :=
  match command.save with
  | some path => { st with saves := st.saves ++ [(path, r.stdout)] }
  | none => st

/-- The decision the shared body of `loop_if`/`loop_if_not` makes once the
pattern condition triggered a re-run request. -/
inductive LoopDec where
  | cont (st : St)
  | retry (st : St)
  | exhausted (st : St)
  | badcount (msg : String) (st : St)

/-- `if self.run_count < self.variable_to_int("loop_count", command.loop_count)`:
the count is parsed first (raising on a non-numeric value, before any
sleep); a retry increments the run counter and sleeps `loop_sleep`. -/
def loopBody (command : BaseCommand) (st : St) : LoopDec :=
  match variable_to_int "loop_count" command.loop_count with
  | Except.error msg => LoopDec.badcount msg st
  | Except.ok n =>
    if st.runCount < n then
      LoopDec.retry { st with runCount := st.runCount + 1, retrySleeps := st.retrySleeps + 1 }
    else
      LoopDec.exhausted st

/-- `loop_if`: re-run when the pattern matches the output. -/
def loopIfDec (env : Env) (command : BaseCommand) (r : Result) (st : St) : LoopDec :=
  match command.loop_if with
  | none => LoopDec.cont st
  | some p =>
    let st1 := { st with loopEvals := st.loopEvals + 1 }
    if env.research p r.stdout then loopBody command st1 else LoopDec.cont st1

/-- `loop_if_not`: re-run when the pattern does NOT match the output. -/
def loopIfNotDec (env : Env) (command : BaseCommand) (r : Result) (st : St) : LoopDec :=
  match command.loop_if_not with
  | none => LoopDec.cont st
  | some p =>
    let st1 := { st with loopEvals := st.loopEvals + 1 }
    if env.research p r.stdout then LoopDec.cont st1 else loopBody command st1

/-- Step 10 of the pipeline; `retryK` is the recursive `self.exec(command)`. -/
def loopIfNotPhase (env : Env) (command : BaseCommand) (r : Result)
    (retryK : St → Outcome × St) (st : St) : Outcome × St :=
  match loopIfNotDec env command r st with
  | LoopDec.badcount msg st1 => (Outcome.raised msg, st1)
  | LoopDec.exhausted st1 => (Outcome.exited ExitReason.loopIfNotExhausted, st1)
  | LoopDec.retry st1 => retryK st1
  | LoopDec.cont st1 => (Outcome.normal, st1)

/-- Step 9; when the recursive `exec` returns normally, control falls back
into the outer `exec`, which continues with `loop_if_not` on the outer
result. -/
def loopIfPhase (env : Env) (command : BaseCommand) (r : Result)
    (retryK : St → Outcome × St) (st : St) : Outcome × St :=
  match loopIfDec env command r st with
  | LoopDec.badcount msg st1 => (Outcome.raised msg, st1)
  | LoopDec.exhausted st1 => (Outcome.exited ExitReason.loopIfExhausted, st1)
  | LoopDec.retry st1 =>
    match retryK st1 with
    | (Outcome.normal, st2) => loopIfNotPhase env command r retryK st2
    | out => out
  | LoopDec.cont st1 => loopIfNotPhase env command r retryK st1

/-- Step 8: `error_if_not` — fatal when the pattern does not match. -/
def errorIfNotPhase (env : Env) (command : BaseCommand) (r : Result)
    (k : St → Outcome × St) (st : St) : Outcome × St :=
  match command.error_if_not with
  | none => k st
  | some p =>
    let st1 := { st with errEvals := st.errEvals + 1 }
    if env.research p r.stdout then k st1 else (Outcome.exited ExitReason.errorIfNot, st1)

/-- Step 7: `error_if` — fatal when the pattern matches. -/
def errorIfPhase (env : Env) (command : BaseCommand) (r : Result)
    (k : St → Outcome × St) (st : St) : Outcome × St :=
  match command.error_if with
  | none => k st
  | some p =>
    let st1 := { st with errEvals := st.errEvals + 1 }
    if env.research p r.stdout then (Outcome.exited ExitReason.errorIf, st1) else k st1

/-- Steps 3–10 of `exec`: everything after the primitive returned (or its
`ExecException` was converted): the `exit_on_error` check, variable
publication, best-effort save, error predicates, loop predicates.  `retryK`
is the recursive `self.exec` used by the loop predicates. -/
def classifyAux (env : Env) (command : BaseCommand) (r : Result)
    (retryK : St → Outcome × St) (st : St) : Outcome × St :=
  if r.returncode ≠ 0 ∧ command.exit_on_error = true then
    (Outcome.exited ExitReason.exitOnError, st)
  else
    errorIfPhase env command r
      (errorIfNotPhase env command r (loopIfPhase env command r retryK))
      (saveOutput command r (publishResult r st))

/-- `BaseExecutor.exec`, fuel-indexed: one primitive invocation, then the
classification pipeline, with retries consuming fuel. -/
def exec (env : Env) (command : BaseCommand) : Nat → St → Outcome × St
  | 0, st => (Outcome.fuelOut, st)
  | fuel + 1, st =>
    classifyAux env command (attemptResult env st.primCalls)
      (exec env command fuel) { st with primCalls := st.primCalls + 1 }

/-- `BaseExecutor.run` resets the run counter to 1 and starts `exec`. -/
def initSt : St :=
  { runCount := 1, primCalls := 0, loopEvals := 0, errEvals := 0,
    retrySleeps := 0, varSets := [], saves := [] }

def run (env : Env) (command : BaseCommand) (fuel : Nat) : Outcome × St :=
  exec env command fuel initSt

/-! ### Projection lemmas for the state-passing helpers -/

@[simp] theorem publishResult_runCount (r : Result) (st : St) :
    (publishResult r st).runCount = st.runCount := rfl

@[simp] theorem publishResult_primCalls (r : Result) (st : St) :
    (publishResult r st).primCalls = st.primCalls := rfl

@[simp] theorem publishResult_loopEvals (r : Result) (st : St) :
    (publishResult r st).loopEvals = st.loopEvals := rfl

@[simp] theorem publishResult_errEvals (r : Result) (st : St) :
    (publishResult r st).errEvals = st.errEvals := rfl

@[simp] theorem publishResult_retrySleeps (r : Result) (st : St) :
    (publishResult r st).retrySleeps = st.retrySleeps := rfl

@[simp] theorem publishResult_saves (r : Result) (st : St) :
    (publishResult r st).saves = st.saves := rfl

@[simp] theorem saveOutput_runCount (c : BaseCommand) (r : Result) (st : St) :
    (saveOutput c r st).runCount = st.runCount := by
  cases h : c.save <;> simp [saveOutput, h]

@[simp] theorem saveOutput_primCalls (c : BaseCommand) (r : Result) (st : St) :
    (saveOutput c r st).primCalls = st.primCalls := by
  cases h : c.save <;> simp [saveOutput, h]

@[simp] theorem saveOutput_loopEvals (c : BaseCommand) (r : Result) (st : St) :
    (saveOutput c r st).loopEvals = st.loopEvals := by
  cases h : c.save <;> simp [saveOutput, h]

@[simp] theorem saveOutput_errEvals (c : BaseCommand) (r : Result) (st : St) :
    (saveOutput c r st).errEvals = st.errEvals := by
  cases h : c.save <;> simp [saveOutput, h]

@[simp] theorem saveOutput_retrySleeps (c : BaseCommand) (r : Result) (st : St) :
    (saveOutput c r st).retrySleeps = st.retrySleeps := by
  cases h : c.save <;> simp [saveOutput, h]

@[simp] theorem saveOutput_varSets (c : BaseCommand) (r : Result) (st : St) :
    (saveOutput c r st).varSets = st.varSets := by
  cases h : c.save <;> simp [saveOutput, h]

/-! ### Conditions under which one attempt falls through to `loop_if` -/

/-- The k-th attempt does not fire any of the fatal checks before `loop_if`
and its output matches the `loop_if` pattern `p`. -/
def GoodAttempt (env : Env) (command : BaseCommand) (p : String) (k : Nat) : Prop :=
  ¬((attemptResult env k).returncode ≠ 0 ∧ command.exit_on_error = true)
  ∧ (∀ q, command.error_if = some q → env.research q (attemptResult env k).stdout = false)
  ∧ (∀ q, command.error_if_not = some q → env.research q (attemptResult env k).stdout = true)
  ∧ env.research p (attemptResult env k).stdout = true

/-- Would `loop_if` request a re-run on this result? -/
def loopIfTriggers (env : Env) (command : BaseCommand) (r : Result) : Bool :=
  match command.loop_if with
  | none => false
  | some p => env.research p r.stdout

/-- Would `loop_if_not` request a re-run on this result? -/
def loopIfNotTriggers (env : Env) (command : BaseCommand) (r : Result) : Bool :=
  match command.loop_if_not with
  | none => false
  | some p => !(env.research p r.stdout)

/-- One attempt that reaches `loop_if`, matches, and finds the run counter
at or above the parsed `loop_count`: the engine exits fatally there, having
invoked the primitive once more and evaluated the loop predicate once
more, with no retry sleep. -/
theorem exec_exhaust_step (env : Env) (command : BaseCommand) (p : String) (n fuel : Nat)
    (st : St)
    (hp : command.loop_if = some p)
    (hn : variable_to_int "loop_count" command.loop_count = Except.ok n)
    (hge : ¬ st.runCount < n)
    (hgood : GoodAttempt env command p st.primCalls) :
    (exec env command (fuel + 1) st).1 = Outcome.exited ExitReason.loopIfExhausted
    ∧ (exec env command (fuel + 1) st).2.primCalls = st.primCalls + 1
    ∧ (exec env command (fuel + 1) st).2.loopEvals = st.loopEvals + 1
    ∧ (exec env command (fuel + 1) st).2.retrySleeps = st.retrySleeps
    ∧ (exec env command (fuel + 1) st).2.runCount = st.runCount := by
  obtain ⟨h1, h2, h3, h4⟩ := hgood
  have hred : exec env command (fuel + 1) st =
      errorIfPhase env command (attemptResult env st.primCalls)
        (errorIfNotPhase env command (attemptResult env st.primCalls)
          (loopIfPhase env command (attemptResult env st.primCalls)
            (exec env command fuel)))
        (saveOutput command (attemptResult env st.primCalls)
          (publishResult (attemptResult env st.primCalls)
            { st with primCalls := st.primCalls + 1 })) := by
    simp only [exec, classifyAux, if_neg h1]
  rw [hred]
  cases hei : command.error_if with
  | some q =>
    rw [errorIfPhase, hei]
    simp only [h2 q hei, if_false, Bool.false_eq_true]
    cases hein : command.error_if_not with
    | some q' =>
      rw [errorIfNotPhase, hein]
      simp only [h3 q' hein, if_true]
      rw [loopIfPhase, loopIfDec, hp]
      simp only [h4, if_true, loopBody, hn]
      simp [hge]
    | none =>
      rw [errorIfNotPhase, hein]
      rw [loopIfPhase, loopIfDec, hp]
      simp only [h4, if_true, loopBody, hn]
      simp [hge]
  | none =>
    rw [errorIfPhase, hei]
    cases hein : command.error_if_not with
    | some q' =>
      rw [errorIfNotPhase, hein]
      simp only [h3 q' hein, if_true]
      rw [loopIfPhase, loopIfDec, hp]
      simp only [h4, if_true, loopBody, hn]
      simp [hge]
    | none =>
      rw [errorIfNotPhase, hein]
      rw [loopIfPhase, loopIfDec, hp]
      simp only [h4, if_true, loopBody, hn]
      simp [hge]

/-- One attempt that passes the `exit_on_error` check and both error
predicates reaches the loop phase; the state carries one more primitive
call and the two published result variables. -/
theorem exec_step_to_loop (env : Env) (command : BaseCommand) (fuel : Nat) (st : St)
    (h1 : ¬((attemptResult env st.primCalls).returncode ≠ 0 ∧ command.exit_on_error = true))
    (h2 : ∀ q, command.error_if = some q →
        env.research q (attemptResult env st.primCalls).stdout = false)
    (h3 : ∀ q, command.error_if_not = some q →
        env.research q (attemptResult env st.primCalls).stdout = true) :
    ∃ st', exec env command (fuel + 1) st =
        loopIfPhase env command (attemptResult env st.primCalls) (exec env command fuel) st'
      ∧ st'.runCount = st.runCount
      ∧ st'.primCalls = st.primCalls + 1
      ∧ st'.loopEvals = st.loopEvals
      ∧ st'.retrySleeps = st.retrySleeps
      ∧ st'.varSets = st.varSets ++
          [("RESULT_STDOUT", (attemptResult env st.primCalls).stdout),
           ("RESULT_RETURNCODE", toString (attemptResult env st.primCalls).returncode)] := by
  have hred : exec env command (fuel + 1) st =
      errorIfPhase env command (attemptResult env st.primCalls)
        (errorIfNotPhase env command (attemptResult env st.primCalls)
          (loopIfPhase env command (attemptResult env st.primCalls)
            (exec env command fuel)))
        (saveOutput command (attemptResult env st.primCalls)
          (publishResult (attemptResult env st.primCalls)
            { st with primCalls := st.primCalls + 1 })) := by
    simp only [exec, classifyAux, if_neg h1]
  rw [hred]
  cases hei : command.error_if with
  | some q =>
    rw [errorIfPhase, hei]
    simp only [h2 q hei, if_false, Bool.false_eq_true]
    cases hein : command.error_if_not with
    | some q' =>
      rw [errorIfNotPhase, hein]
      simp only [h3 q' hein, if_true]
      exact ⟨_, rfl, by simp, by simp, by simp, by simp, by simp [publishResult]⟩
    | none =>
      rw [errorIfNotPhase, hein]
      exact ⟨_, rfl, by simp, by simp, by simp, by simp, by simp [publishResult]⟩
  | none =>
    rw [errorIfPhase, hei]
    cases hein : command.error_if_not with
    | some q' =>
      rw [errorIfNotPhase, hein]
      simp only [h3 q' hein, if_true]
      exact ⟨_, rfl, by simp, by simp, by simp, by simp, by simp [publishResult]⟩
    | none =>
      rw [errorIfNotPhase, hein]
      exact ⟨_, rfl, by simp, by simp, by simp, by simp, by simp [publishResult]⟩

/-- One attempt whose `loop_if` matches while the run counter is still
below the parsed `loop_count`: the engine increments the counter, sleeps,
and re-runs `exec` on the same command; a non-normal outcome of the
re-run is the outcome of the whole call. -/
theorem exec_loop_retry (env : Env) (command : BaseCommand) (p : String) (n fuel : Nat)
    (st : St)
    (hp : command.loop_if = some p)
    (hn : variable_to_int "loop_count" command.loop_count = Except.ok n)
    (hlt : st.runCount < n)
    (hgood : GoodAttempt env command p st.primCalls) :
    ∃ st', exec env command (fuel + 1) st =
        (match exec env command fuel st' with
         | (Outcome.normal, st2) =>
             loopIfNotPhase env command (attemptResult env st.primCalls)
               (exec env command fuel) st2
         | out => out)
      ∧ st'.runCount = st.runCount + 1
      ∧ st'.primCalls = st.primCalls + 1
      ∧ st'.loopEvals = st.loopEvals + 1
      ∧ st'.retrySleeps = st.retrySleeps + 1 := by
  obtain ⟨h1, h2, h3, h4⟩ := hgood
  obtain ⟨stm, heq, hrc, hpc, hle, hrs, _⟩ := exec_step_to_loop env command fuel st h1 h2 h3
  rw [heq, loopIfPhase, loopIfDec, hp]
  simp only [h4, if_true, loopBody, hn]
  have hcond : ({ stm with loopEvals := stm.loopEvals + 1 } : St).runCount < n := by
    simpa [hrc] using hlt
  rw [if_pos hcond]
  refine ⟨_, rfl, ?_, ?_, ?_, ?_⟩ <;> simp [hrc, hpc, hle, hrs]

/-- When `loop_if` matches on every attempt, the engine retries until the
run counter reaches the parsed `loop_count` and then exits fatally; counts
of primitive calls, loop-predicate evaluations and retry sleeps relative to
the start state. -/
theorem exec_loop_exhausts (env : Env) (command : BaseCommand) (p : String) (n : Nat)
    (hp : command.loop_if = some p)
    (hn : variable_to_int "loop_count" command.loop_count = Except.ok n) :
    ∀ fuel st, 1 ≤ st.runCount → st.runCount ≤ n →
      (∀ k, st.primCalls ≤ k → k ≤ st.primCalls + (n - st.runCount) →
        GoodAttempt env command p k) →
      n - st.runCount < fuel →
      (exec env command fuel st).1 = Outcome.exited ExitReason.loopIfExhausted
      ∧ (exec env command fuel st).2.primCalls = st.primCalls + (n - st.runCount) + 1
      ∧ (exec env command fuel st).2.loopEvals = st.loopEvals + (n - st.runCount) + 1
      ∧ (exec env command fuel st).2.retrySleeps = st.retrySleeps + (n - st.runCount) := by
  intro fuel
  induction fuel with
  | zero => intro st _ _ _ hf; omega
  | succ fuel ih =>
    intro st hrc1 hrcn hgood hf
    by_cases hlt : st.runCount < n
    · obtain ⟨st', heq, hrc, hpc, hle, hrs⟩ :=
        exec_loop_retry env command p n fuel st hp hn hlt
          (hgood st.primCalls le_rfl (by omega))
      have hrec := ih st' (by omega) (by omega)
        (by intro k hk1 hk2; exact hgood k (by omega) (by omega)) (by omega)
      rcases hx : exec env command fuel st' with ⟨o, s2⟩
      rw [hx] at hrec
      obtain ⟨ho, hp2, hl2, hr2⟩ := hrec
      simp only at ho hp2 hl2 hr2
      subst ho
      rw [heq, hx]
      refine ⟨rfl, ?_, ?_, ?_⟩ <;> simp only [] <;> omega
    · have hn' : st.runCount = n := by omega
      have h := exec_exhaust_step env command p n fuel st hp hn hlt
        (hgood st.primCalls le_rfl (by omega))
      obtain ⟨ha, hb, hc, hd, he⟩ := h
      refine ⟨ha, ?_, ?_, ?_⟩ <;> omega

/-! ### Claim theorems for the execution engine -/

/-- C1 (amended): for every command whose `loop_if` pattern matches the
result output on every attempt, with `loop_count` resolving to a numeric
value `n ≥ 1`, the injected single-attempt execution primitive is invoked
exactly `n` times, and the process terminates fatally (exit status 1)
during the `n`-th evaluation of the loop predicate — exactly `n`
loop-predicate evaluations occur, with `n - 1` retry sleeps between
attempts; there is no further `(n+1)`-th evaluation. -/
theorem loopIf_matching_retry_bound (env : Env) (command : BaseCommand) (p : String)
    (n fuel : Nat)
    (hp : command.loop_if = some p)
    (hn : variable_to_int "loop_count" command.loop_count = Except.ok n)
    (h1 : 1 ≤ n)
    (hgood : ∀ k, k < n → GoodAttempt env command p k)
    (hfuel : n ≤ fuel) :
    (run env command fuel).1 = Outcome.exited ExitReason.loopIfExhausted
    ∧ (run env command fuel).2.primCalls = n
    ∧ (run env command fuel).2.loopEvals = n
    ∧ (run env command fuel).2.retrySleeps = n - 1
    ∧ fatalExitCode (run env command fuel).1 = some 1 := by
  have h := exec_loop_exhausts env command p n hp hn fuel initSt
    (by simp [initSt]) (by simpa [initSt] using h1)
    (by intro k hk1 hk2; simp [initSt] at hk1 hk2; exact hgood k (by omega))
    (by simp [initSt]; omega)
  obtain ⟨ha, hb, hc, hd⟩ := h
  refine ⟨ha, ?_, ?_, ?_, ?_⟩
  · rw [run, hb]; simp [initSt]; omega
  · rw [run, hc]; simp [initSt]; omega
  · rw [run, hd]; simp [initSt]
  · rw [run, ha]; rfl

/-- Concrete scenario for C1: `research` holds for the pattern `"PEND"`,
the primitive always returns `Result("pending", 0)`. -/
def envC1 : Env :=
  { research := fun p _ => p == "PEND", prim := fun _ => Except.ok ⟨"pending", 0⟩ }

def cmdC1 : BaseCommand :=
  { cmd := "check", save := none, exit_on_error := false, error_if := none,
    error_if_not := none, loop_if := some "PEND", loop_if_not := none, loop_count := "3" }

/-- C1 counterexample: with `loop_count:"3"` and `loop_if` matching on all
attempts, the primitive is invoked 3 times, and the fatal exit happens with
exactly 3 loop-predicate evaluations performed — the claimed 4th evaluation
of the loop predicate never takes place. -/
theorem loopIf_retry_claim_counterexample :
    (run envC1 cmdC1 10).1 = Outcome.exited ExitReason.loopIfExhausted
    ∧ (run envC1 cmdC1 10).2.primCalls = 3
    ∧ (run envC1 cmdC1 10).2.loopEvals = 3
    ∧ ¬((run envC1 cmdC1 10).2.loopEvals = 3 + 1) := by
  decide

/-- C9: because the run counter starts at 1 and a retry requires
`run_count < loop_count`, a command whose `loop_if` matches with
`loop_count` resolving to 0 or 1 still has the primitive invoked exactly
once, with no retry sleep, before the fatal loop-exhaustion exit. -/
theorem loop_count_low_single_invocation (env : Env) (command : BaseCommand) (p : String)
    (n fuel : Nat)
    (hp : command.loop_if = some p)
    (hn : variable_to_int "loop_count" command.loop_count = Except.ok n)
    (hle : n ≤ 1)
    (hgood : GoodAttempt env command p 0) :
    (run env command (fuel + 1)).1 = Outcome.exited ExitReason.loopIfExhausted
    ∧ (run env command (fuel + 1)).2.primCalls = 1
    ∧ (run env command (fuel + 1)).2.loopEvals = 1
    ∧ (run env command (fuel + 1)).2.retrySleeps = 0 := by
  have h := exec_exhaust_step env command p n fuel initSt hp hn
    (by simp [initSt]; omega) (by exact hgood)
  obtain ⟨ha, hb, hc, hd, he⟩ := h
  exact ⟨ha, by rw [run, hb]; rfl, by rw [run, hc]; rfl, by rw [run, hd]; rfl⟩

/-- C6: with `exit_on_error` set and a failing return code, `exec`
terminates the whole process immediately (exit status 1) and no later
pipeline step runs: the state records only the primitive call — no
variable publication, no save, no error- or loop-predicate evaluation. -/
theorem exit_on_error_terminates_immediately (env : Env) (command : BaseCommand)
    (fuel : Nat) (st : St)
    (hrc : (attemptResult env st.primCalls).returncode ≠ 0)
    (hee : command.exit_on_error = true) :
    exec env command (fuel + 1) st =
      (Outcome.exited ExitReason.exitOnError, { st with primCalls := st.primCalls + 1 })
    ∧ fatalExitCode (exec env command (fuel + 1) st).1 = some 1 := by
  have hcond : (attemptResult env st.primCalls).returncode ≠ 0
      ∧ command.exit_on_error = true := ⟨hrc, hee⟩
  constructor
  · simp only [exec, classifyAux, if_pos hcond]
  · simp only [exec, classifyAux, if_pos hcond]; rfl

/-- C2: when both `error_if` and `loop_if` match the output of the
attempt, `exec` terminates the process (exit status 1) through a fatal
site that precedes the loop phase — either the `exit_on_error` check or
the `error_if` predicate — and the loop predicates are never evaluated;
the primitive is not re-invoked. -/
theorem error_if_preempts_loop (env : Env) (command : BaseCommand) (fuel : Nat) (st : St)
    (q p : String)
    (hq : command.error_if = some q)
    (hqm : env.research q (attemptResult env st.primCalls).stdout = true)
    (hp : command.loop_if = some p)
    (hpm : env.research p (attemptResult env st.primCalls).stdout = true) :
    ((exec env command (fuel + 1) st).1 = Outcome.exited ExitReason.exitOnError
      ∨ (exec env command (fuel + 1) st).1 = Outcome.exited ExitReason.errorIf)
    ∧ (exec env command (fuel + 1) st).2.loopEvals = st.loopEvals
    ∧ (exec env command (fuel + 1) st).2.primCalls = st.primCalls + 1
    ∧ fatalExitCode (exec env command (fuel + 1) st).1 = some 1 := by
  by_cases hc : (attemptResult env st.primCalls).returncode ≠ 0 ∧ command.exit_on_error = true
  · have hred : exec env command (fuel + 1) st =
        (Outcome.exited ExitReason.exitOnError, { st with primCalls := st.primCalls + 1 }) := by
      simp only [exec, classifyAux, if_pos hc]
    rw [hred]
    exact ⟨Or.inl rfl, rfl, rfl, rfl⟩
  · have hred : exec env command (fuel + 1) st =
        errorIfPhase env command (attemptResult env st.primCalls)
          (errorIfNotPhase env command (attemptResult env st.primCalls)
            (loopIfPhase env command (attemptResult env st.primCalls)
              (exec env command fuel)))
          (saveOutput command (attemptResult env st.primCalls)
            (publishResult (attemptResult env st.primCalls)
              { st with primCalls := st.primCalls + 1 })) := by
      simp only [exec, classifyAux, if_neg hc]
    rw [hred, errorIfPhase, hq]
    refine ⟨Or.inr ?_, ?_, ?_, ?_⟩ <;> simp [hqm, fatalExitCode]

/-- C5: when a loop predicate (either polarity) requests a re-run but
`loop_count` does not parse as a non-negative integer, the engine raises
the typed `ExecException` from `variable_to_int` before any retry sleep,
and the process terminates with exit status 1 — there is no silent
default. -/
theorem nonnumeric_loop_count_raises (env : Env) (command : BaseCommand) (fuel : Nat)
    (st : St)
    (h1 : ¬((attemptResult env st.primCalls).returncode ≠ 0 ∧ command.exit_on_error = true))
    (h2 : ∀ q, command.error_if = some q →
        env.research q (attemptResult env st.primCalls).stdout = false)
    (h3 : ∀ q, command.error_if_not = some q →
        env.research q (attemptResult env st.primCalls).stdout = true)
    (htrig : loopIfTriggers env command (attemptResult env st.primCalls) = true
      ∨ loopIfNotTriggers env command (attemptResult env st.primCalls) = true)
    (hbad : pyIsNumeric command.loop_count = false) :
    (exec env command (fuel + 1) st).1 =
      Outcome.raised ("Variable loop_count has not a numeric value: " ++ command.loop_count)
    ∧ (exec env command (fuel + 1) st).2.retrySleeps = st.retrySleeps
    ∧ fatalExitCode (exec env command (fuel + 1) st).1 = some 1 := by
  have hbc : variable_to_int "loop_count" command.loop_count =
      Except.error ("Variable loop_count has not a numeric value: " ++ command.loop_count) := by
    simp [variable_to_int, hbad]
  obtain ⟨stm, heq, hrc, hpc, hle, hrs, _⟩ := exec_step_to_loop env command fuel st h1 h2 h3
  rw [heq]
  by_cases hti : loopIfTriggers env command (attemptResult env st.primCalls) = true
  · cases hli : command.loop_if with
    | none => simp [loopIfTriggers, hli] at hti
    | some p =>
      simp only [loopIfTriggers, hli] at hti
      rw [loopIfPhase, loopIfDec, hli]
      refine ⟨?_, ?_, ?_⟩ <;> simp [hti, loopBody, hbc, hrs, fatalExitCode]
  · have htn : loopIfNotTriggers env command (attemptResult env st.primCalls) = true := by
      rcases htrig with h | h
      · exact absurd h hti
      · exact h
    have hcont : ∀ s : St, s.retrySleeps = st.retrySleeps →
        (loopIfNotPhase env command (attemptResult env st.primCalls)
          (exec env command fuel) s).1 =
          Outcome.raised ("Variable loop_count has not a numeric value: " ++ command.loop_count)
        ∧ (loopIfNotPhase env command (attemptResult env st.primCalls)
          (exec env command fuel) s).2.retrySleeps = st.retrySleeps := by
      intro s hs
      cases hln : command.loop_if_not with
      | none => simp [loopIfNotTriggers, hln] at htn
      | some q =>
        simp only [loopIfNotTriggers, hln] at htn
        have hqf : env.research q (attemptResult env st.primCalls).stdout = false := by
          simpa using htn
        rw [loopIfNotPhase, loopIfNotDec, hln]
        constructor <;> simp [hqf, loopBody, hbc, hs]
    cases hli : command.loop_if with
    | none =>
      rw [loopIfPhase, loopIfDec, hli]
      obtain ⟨ha, hb⟩ := hcont stm hrs
      exact ⟨ha, hb, by rw [ha]; rfl⟩
    | some p =>
      have hpf : env.research p (attemptResult env st.primCalls).stdout = false := by
        simp only [loopIfTriggers, hli] at hti
        simpa using hti
      rw [loopIfPhase, loopIfDec, hli]
      simp only [hpf, if_false, Bool.false_eq_true]
      obtain ⟨ha, hb⟩ := hcont { stm with loopEvals := stm.loopEvals + 1 } (by simp [hrs])
      exact ⟨ha, hb, by rw [ha]; rfl⟩

/-! ### The pipeline only ever appends to the variable store -/

def LoopDec.state : LoopDec → St
  | LoopDec.cont s => s
  | LoopDec.retry s => s
  | LoopDec.exhausted s => s
  | LoopDec.badcount _ s => s

theorem loopBody_state_varSets (command : BaseCommand) (st : St) :
    (loopBody command st).state.varSets = st.varSets := by
  rw [loopBody]
  cases variable_to_int "loop_count" command.loop_count with
  | error msg => rfl
  | ok n => by_cases h : st.runCount < n <;> simp [h, LoopDec.state]

theorem loopIfDec_state_varSets (env : Env) (command : BaseCommand) (r : Result) (st : St) :
    (loopIfDec env command r st).state.varSets = st.varSets := by
  rw [loopIfDec]
  cases command.loop_if with
  | none => rfl
  | some p =>
    by_cases h : env.research p r.stdout = true
    · simp only [h, if_true]
      rw [loopBody_state_varSets]
    · simp [h, LoopDec.state]

theorem loopIfNotDec_state_varSets (env : Env) (command : BaseCommand) (r : Result) (st : St) :
    (loopIfNotDec env command r st).state.varSets = st.varSets := by
  rw [loopIfNotDec]
  cases command.loop_if_not with
  | none => rfl
  | some p =>
    by_cases h : env.research p r.stdout = true
    · simp [h, LoopDec.state]
    · simp only [h, Bool.false_eq_true, if_false]
      rw [loopBody_state_varSets]

/-! Equation lemmas reducing the loop phases once the decision is known. -/

theorem loopIfNotPhase_cont (env : Env) (command : BaseCommand) (r : Result)
    (retryK : St → Outcome × St) {st s : St}
    (h : loopIfNotDec env command r st = LoopDec.cont s) :
    loopIfNotPhase env command r retryK st = (Outcome.normal, s) := by
  rw [loopIfNotPhase, h]

theorem loopIfNotPhase_retry (env : Env) (command : BaseCommand) (r : Result)
    (retryK : St → Outcome × St) {st s : St}
    (h : loopIfNotDec env command r st = LoopDec.retry s) :
    loopIfNotPhase env command r retryK st = retryK s := by
  rw [loopIfNotPhase, h]

theorem loopIfNotPhase_exhausted (env : Env) (command : BaseCommand) (r : Result)
    (retryK : St → Outcome × St) {st s : St}
    (h : loopIfNotDec env command r st = LoopDec.exhausted s) :
    loopIfNotPhase env command r retryK st =
      (Outcome.exited ExitReason.loopIfNotExhausted, s) := by
  rw [loopIfNotPhase, h]

theorem loopIfNotPhase_badcount (env : Env) (command : BaseCommand) (r : Result)
    (retryK : St → Outcome × St) {st s : St} {msg : String}
    (h : loopIfNotDec env command r st = LoopDec.badcount msg s) :
    loopIfNotPhase env command r retryK st = (Outcome.raised msg, s) := by
  rw [loopIfNotPhase, h]

theorem loopIfPhase_cont (env : Env) (command : BaseCommand) (r : Result)
    (retryK : St → Outcome × St) {st s : St}
    (h : loopIfDec env command r st = LoopDec.cont s) :
    loopIfPhase env command r retryK st = loopIfNotPhase env command r retryK s := by
  rw [loopIfPhase, h]

theorem loopIfPhase_retry_normal (env : Env) (command : BaseCommand) (r : Result)
    (retryK : St → Outcome × St) {st s s2 : St}
    (h : loopIfDec env command r st = LoopDec.retry s)
    (hx : retryK s = (Outcome.normal, s2)) :
    loopIfPhase env command r retryK st = loopIfNotPhase env command r retryK s2 := by
  rw [loopIfPhase, h]
  change (match retryK s with
    | (Outcome.normal, st2) => loopIfNotPhase env command r retryK st2
    | out => out) = _
  rw [hx]

theorem loopIfPhase_retry_other (env : Env) (command : BaseCommand) (r : Result)
    (retryK : St → Outcome × St) {st s s2 : St} {o : Outcome}
    (h : loopIfDec env command r st = LoopDec.retry s)
    (hx : retryK s = (o, s2)) (ho : o ≠ Outcome.normal) :
    loopIfPhase env command r retryK st = (o, s2) := by
  rw [loopIfPhase, h]
  change (match retryK s with
    | (Outcome.normal, st2) => loopIfNotPhase env command r retryK st2
    | out => out) = _
  rw [hx]
  cases o with
  | normal => exact absurd rfl ho
  | exited reason => rfl
  | raised msg => rfl
  | fuelOut => rfl

theorem loopIfPhase_exhausted (env : Env) (command : BaseCommand) (r : Result)
    (retryK : St → Outcome × St) {st s : St}
    (h : loopIfDec env command r st = LoopDec.exhausted s) :
    loopIfPhase env command r retryK st =
      (Outcome.exited ExitReason.loopIfExhausted, s) := by
  rw [loopIfPhase, h]

theorem loopIfPhase_badcount (env : Env) (command : BaseCommand) (r : Result)
    (retryK : St → Outcome × St) {st s : St} {msg : String}
    (h : loopIfDec env command r st = LoopDec.badcount msg s) :
    loopIfPhase env command r retryK st = (Outcome.raised msg, s) := by
  rw [loopIfPhase, h]

theorem loopIfNotPhase_varSets (env : Env) (command : BaseCommand) (r : Result)
    (retryK : St → Outcome × St)
    (hK : ∀ s, ∃ t, (retryK s).2.varSets = s.varSets ++ t) (st : St) :
    ∃ t, (loopIfNotPhase env command r retryK st).2.varSets = st.varSets ++ t := by
  have hd := loopIfNotDec_state_varSets env command r st
  cases h : loopIfNotDec env command r st with
  | cont s =>
    rw [h] at hd; simp only [LoopDec.state] at hd
    rw [loopIfNotPhase_cont env command r retryK h]
    exact ⟨[], by simp [hd]⟩
  | retry s =>
    rw [h] at hd; simp only [LoopDec.state] at hd
    rw [loopIfNotPhase_retry env command r retryK h]
    obtain ⟨t, ht⟩ := hK s
    exact ⟨t, by rw [ht, hd]⟩
  | exhausted s =>
    rw [h] at hd; simp only [LoopDec.state] at hd
    rw [loopIfNotPhase_exhausted env command r retryK h]
    exact ⟨[], by simp [hd]⟩
  | badcount msg s =>
    rw [h] at hd; simp only [LoopDec.state] at hd
    rw [loopIfNotPhase_badcount env command r retryK h]
    exact ⟨[], by simp [hd]⟩

theorem loopIfPhase_varSets (env : Env) (command : BaseCommand) (r : Result)
    (retryK : St → Outcome × St)
    (hK : ∀ s, ∃ t, (retryK s).2.varSets = s.varSets ++ t) (st : St) :
    ∃ t, (loopIfPhase env command r retryK st).2.varSets = st.varSets ++ t := by
  have hd := loopIfDec_state_varSets env command r st
  cases h : loopIfDec env command r st with
  | cont s =>
    rw [h] at hd; simp only [LoopDec.state] at hd
    rw [loopIfPhase_cont env command r retryK h]
    obtain ⟨t, ht⟩ := loopIfNotPhase_varSets env command r retryK hK s
    exact ⟨t, by rw [ht, hd]⟩
  | retry s =>
    rw [h] at hd; simp only [LoopDec.state] at hd
    rcases hx : retryK s with ⟨o, s2⟩
    obtain ⟨t, ht⟩ := hK s
    rw [hx] at ht; simp only at ht
    cases ho : o with
    | normal =>
      rw [ho] at hx
      rw [loopIfPhase_retry_normal env command r retryK h hx]
      obtain ⟨t2, ht2⟩ := loopIfNotPhase_varSets env command r retryK hK s2
      exact ⟨t ++ t2, by rw [ht2, ht, hd, List.append_assoc]⟩
    | exited reason =>
      rw [ho] at hx
      rw [loopIfPhase_retry_other env command r retryK h hx (by simp)]
      exact ⟨t, by rw [ht, hd]⟩
    | raised msg =>
      rw [ho] at hx
      rw [loopIfPhase_retry_other env command r retryK h hx (by simp)]
      exact ⟨t, by rw [ht, hd]⟩
    | fuelOut =>
      rw [ho] at hx
      rw [loopIfPhase_retry_other env command r retryK h hx (by simp)]
      exact ⟨t, by rw [ht, hd]⟩
  | exhausted s =>
    rw [h] at hd; simp only [LoopDec.state] at hd
    rw [loopIfPhase_exhausted env command r retryK h]
    exact ⟨[], by simp [hd]⟩
  | badcount msg s =>
    rw [h] at hd; simp only [LoopDec.state] at hd
    rw [loopIfPhase_badcount env command r retryK h]
    exact ⟨[], by simp [hd]⟩

theorem errorIfNotPhase_varSets (env : Env) (command : BaseCommand) (r : Result)
    (k : St → Outcome × St)
    (hk : ∀ s, ∃ t, (k s).2.varSets = s.varSets ++ t) (st : St) :
    ∃ t, (errorIfNotPhase env command r k st).2.varSets = st.varSets ++ t := by
  rw [errorIfNotPhase]
  cases command.error_if_not with
  | none => exact hk st
  | some p =>
    cases h : env.research p r.stdout with
    | true =>
      simp only [h, if_true]
      obtain ⟨t, ht⟩ := hk { st with errEvals := st.errEvals + 1 }
      exact ⟨t, by rw [ht]⟩
    | false =>
      simp only [h, Bool.false_eq_true, if_false]
      exact ⟨[], by simp⟩

theorem errorIfPhase_varSets (env : Env) (command : BaseCommand) (r : Result)
    (k : St → Outcome × St)
    (hk : ∀ s, ∃ t, (k s).2.varSets = s.varSets ++ t) (st : St) :
    ∃ t, (errorIfPhase env command r k st).2.varSets = st.varSets ++ t := by
  rw [errorIfPhase]
  cases command.error_if with
  | none => exact hk st
  | some p =>
    cases h : env.research p r.stdout with
    | true =>
      simp only [h, if_true]
      exact ⟨[], by simp⟩
    | false =>
      simp only [h, Bool.false_eq_true, if_false]
      obtain ⟨t, ht⟩ := hk { st with errEvals := st.errEvals + 1 }
      exact ⟨t, by rw [ht]⟩

theorem classifyAux_varSets (env : Env) (command : BaseCommand) (r : Result)
    (retryK : St → Outcome × St)
    (hK : ∀ s, ∃ t, (retryK s).2.varSets = s.varSets ++ t) (st : St) :
    ∃ t, (classifyAux env command r retryK st).2.varSets = st.varSets ++ t := by
  rw [classifyAux]
  by_cases h : r.returncode ≠ 0 ∧ command.exit_on_error = true
  · rw [if_pos h]; exact ⟨[], by simp⟩
  · rw [if_neg h]
    obtain ⟨t, ht⟩ := errorIfPhase_varSets env command r _
      (errorIfNotPhase_varSets env command r _ (loopIfPhase_varSets env command r retryK hK))
      (saveOutput command r (publishResult r st))
    refine ⟨[("RESULT_STDOUT", r.stdout), ("RESULT_RETURNCODE", toString r.returncode)] ++ t, ?_⟩
    rw [ht]
    simp [publishResult, List.append_assoc]

theorem exec_varSets_extend (env : Env) (command : BaseCommand) :
    ∀ fuel st, ∃ t, (exec env command fuel st).2.varSets = st.varSets ++ t := by
  intro fuel
  induction fuel with
  | zero => intro st; exact ⟨[], by simp [exec]⟩
  | succ fuel ih =>
    intro st
    rw [exec]
    obtain ⟨t, ht⟩ := classifyAux_varSets env command (attemptResult env st.primCalls)
      (exec env command fuel) ih { st with primCalls := st.primCalls + 1 }
    exact ⟨t, by rw [ht]⟩

/-- C4: a typed execution failure (`ExecException msg`) raised by the
injected primitive is not propagated: `exec` is literally the
classification pipeline applied to the converted `Result(msg, 1)`, exactly
as it is the pipeline applied to `res` when the primitive returns `res`
normally; and (absent the `exit_on_error` preemption, which needs a set
flag) the converted failing result is published into the variable store
and continues through the pipeline. -/
theorem exec_converts_ExecException (env : Env) (command : BaseCommand) (fuel : Nat)
    (st : St) (msg : String) (res : Result) :
    (env.prim st.primCalls = Except.error msg →
      exec env command (fuel + 1) st =
        classifyAux env command ⟨msg, 1⟩ (exec env command fuel)
          { st with primCalls := st.primCalls + 1 })
    ∧ (env.prim st.primCalls = Except.ok res →
      exec env command (fuel + 1) st =
        classifyAux env command res (exec env command fuel)
          { st with primCalls := st.primCalls + 1 })
    ∧ (env.prim st.primCalls = Except.error msg → command.exit_on_error = false →
      ∃ t, (exec env command (fuel + 1) st).2.varSets =
        st.varSets ++ [("RESULT_STDOUT", msg), ("RESULT_RETURNCODE", "1")] ++ t) := by
  refine ⟨?_, ?_, ?_⟩
  · intro herr
    rw [exec, attemptResult, herr]
    rfl
  · intro hok
    rw [exec, attemptResult, hok]
    rfl
  · intro herr hee
    have heq : exec env command (fuel + 1) st =
        classifyAux env command ⟨msg, 1⟩ (exec env command fuel)
          { st with primCalls := st.primCalls + 1 } := by
      rw [exec, attemptResult, herr]
      rfl
    rw [heq, classifyAux]
    have hnc : ¬((Result.mk msg 1).returncode ≠ 0 ∧ command.exit_on_error = true) := by
      simp [hee]
    rw [if_neg hnc]
    obtain ⟨t, ht⟩ := errorIfPhase_varSets env command ⟨msg, 1⟩ _
      (errorIfNotPhase_varSets env command ⟨msg, 1⟩ _
        (loopIfPhase_varSets env command ⟨msg, 1⟩ (exec env command fuel)
          (exec_varSets_extend env command fuel)))
      (saveOutput command ⟨msg, 1⟩
        (publishResult ⟨msg, 1⟩ { st with primCalls := st.primCalls + 1 }))
    refine ⟨t, ?_⟩
    rw [ht]
    simp [publishResult, List.append_assoc]
    rfl

/-! ### The session store — `MsfSessionStore` -/

/-- Observable session-store state: the local name → correlation-id
directory, the store's attached queue (`none` when no queue is set), the
variable-store write log, and three sleep counters: drain-stabilization
sleeps (`get_session_wait_time`), 3-second poll sleeps in the blocking
lookup, and 30-second readiness sleeps in `add_or_queue_session`. -/
structure MsfStore where
  sessions : List (String × String)
  queue : Option (List (String × String))
  varSets : List (String × String)
  waitSleeps : Nat
  pollSleeps : Nat
  stabSleeps : Nat
deriving DecidableEq

/-- `add_session`: unconditional upsert into the directory. -/
def add_session (st : MsfStore) (name uuid : String) : MsfStore :=
  { st with sessions := pyDictSet st.sessions name uuid }

def mergeSessions (sessions items : List (String × String)) : List (String × String) :=
  items.foldl (fun acc it => pyDictSet acc it.1 it.2) sessions

/-- The drain loop at the top of `get_session_by_name`: while the store
has a queue and it is non-empty, pop each pending `(name, uuid)` pair,
`add_session` it, and sleep `get_session_wait_time` after each. -/
def drainQueue (st : MsfStore) : MsfStore :=
  match st.queue with
  | none => st
  | some items =>
    { st with
        sessions := mergeSessions st.sessions items,
        queue := some [],
        waitSleeps := st.waitSleeps + items.length }

/-- The live registry as read at one poll: handle → exploit uuid. -/
abbrev Registry := List (String × String)

/-- `for k, v in msfsessions.list.items(): if name in self.sessions: if
v['exploit_uuid'] == self.sessions[name]: return k`. -/
def findHandle (sessions : List (String × String)) (name : String) (reg : Registry) :
    Option String :=
  (reg.find? (fun kv =>
    match pyDictGet sessions name with
    | some uuid => kv.2 == uuid
    | none => false)).map (fun kv => kv.1)

inductive GetOutcome where
  | found (handle : String)
  | raised (msg : String)
  | fuelOut
deriving DecidableEq

/-- `get_session_by_name`: drain the queue, scan the live registry, and on
no match either raise (non-blocking) or sleep 3 seconds and repeat. -/
def get_session_by_name (name : String) (reg : Registry) (block : Bool) :
    Nat → MsfStore → GetOutcome × MsfStore
  | 0, st => (GetOutcome.fuelOut, st)
  | fuel + 1, st =>
    let st1 := drainQueue st
    match findHandle st1.sessions name reg with
    | some k => (GetOutcome.found k, st1)
    | none =>
      if block then
        get_session_by_name name reg block fuel { st1 with pollSleeps := st1.pollSleeps + 1 }
      else
        (GetOutcome.raised ("Session (" ++ name ++ ") not found"), st1)

/-- `add_or_queue_session`: with a queue, push `(name, uuid)` and touch
nothing else; without one, register into the directory, publish
`LAST_MSF_SESSION`, and sleep 30 seconds. -/
def add_or_queue_session (st : MsfStore) (name uuid : String)
    (queue : Option (List (String × String))) (session_id : String) :
    Option (List (String × String)) × MsfStore :=
  match queue with
  | some q => (some (q ++ [(name, uuid)]), st)
  | none =>
    (none,
      { st with
          sessions := pyDictSet st.sessions name uuid,
          varSets := st.varSets ++ [("LAST_MSF_SESSION", session_id)],
          stabSleeps := st.stabSleeps + 1 })

inductive WaitOutcome where
  | done (session_id : String) (uuid : String)
  | fuelOut
deriving DecidableEq

/-- `wait_for_session`: poll the live registry (`regs i` is what the i-th
poll observes) until some handle's exploit uuid equals `uuid`, then
register-or-queue that handle. -/
def wait_for_session (regs : Nat → Registry) (name uuid : String)
    (queue : Option (List (String × String))) :
    Nat → Nat → MsfStore → WaitOutcome × Option (List (String × String)) × MsfStore
  | 0, _, st => (WaitOutcome.fuelOut, queue, st)
  | fuel + 1, i, st =>
    if 0 < (regs i).length then
      match (regs i).find? (fun kv => kv.2 == uuid) with
      | some kv =>
        ((WaitOutcome.done kv.1 uuid, add_or_queue_session st name uuid queue kv.1) :
          WaitOutcome × Option (List (String × String)) × MsfStore)
      | none => wait_for_session regs name uuid queue fuel (i + 1) st
    else wait_for_session regs name uuid queue fuel (i + 1) st

/-- The poll loop of `wait_for_increased_session`, after the length and
key-set snapshots were taken: wait until the registry grows past `len0`,
then attribute the first handle not in the snapshot. -/
def wait_for_increased_aux (regs : Nat → Registry) (name : String)
    (queue : Option (List (String × String))) (len0 : Nat) (ids0 : List String) :
    Nat → Nat → MsfStore → WaitOutcome × Option (List (String × String)) × MsfStore
  | 0, _, st => (WaitOutcome.fuelOut, queue, st)
  | fuel + 1, i, st =>
    if len0 < (regs i).length then
      match (regs i).find? (fun kv => !(ids0.contains kv.1)) with
      | some kv =>
        ((WaitOutcome.done kv.1 kv.2, add_or_queue_session st name kv.2 queue kv.1) :
          WaitOutcome × Option (List (String × String)) × MsfStore)
      | none => wait_for_increased_aux regs name queue len0 ids0 fuel (i + 1) st
    else wait_for_increased_aux regs name queue len0 ids0 fuel (i + 1) st

/-- `wait_for_increased_session`: snapshot the current live handles, then
poll for a strictly larger registry and attribute the newly appeared
handle's exploit uuid to `name` (the `uuid` argument is not consulted, as
in the source). -/
def wait_for_increased_session (regs : Nat → Registry) (name uuid : String)
    (queue : Option (List (String × String))) (fuel : Nat) (st : MsfStore) :
    WaitOutcome × Option (List (String × String)) × MsfStore :=
  wait_for_increased_aux regs name queue (regs 0).length ((regs 0).map Prod.fst) fuel 0 st

/-! ### Session-store lemmas and claim theorems -/

theorem drainQueue_empty (st : MsfStore) (hq : st.queue = none ∨ st.queue = some []) :
    drainQueue st = st := by
  rcases hq with h | h
  · rw [drainQueue, h]
  · rw [drainQueue, h]
    cases st with
    | mk sessions queue varSets waitSleeps pollSleeps stabSleeps =>
      simp only at h
      simp [mergeSessions, h]

theorem findHandle_none (sessions : List (String × String)) (name : String) (reg : Registry)
    (hno : ∀ kv, kv ∈ reg → ∀ uuid, pyDictGet sessions name = some uuid → kv.2 ≠ uuid) :
    findHandle sessions name reg = none := by
  rw [findHandle]
  have hfind : reg.find? (fun kv =>
      match pyDictGet sessions name with
      | some uuid => kv.2 == uuid
      | none => false) = none := by
    rw [List.find?_eq_none]
    intro kv hkv
    cases hg : pyDictGet sessions name with
    | none => simp
    | some uuid => simp [beq_iff_eq]; exact hno kv hkv uuid hg
  rw [hfind]
  rfl

/-- The blocking lookup polls forever when the queue is empty and nothing
in the registry matches: each iteration adds one 3-second sleep and never
returns or raises. -/
theorem get_session_block_polls (name : String) (reg : Registry) :
    ∀ fuel (st : MsfStore), st.queue = none ∨ st.queue = some [] →
      findHandle st.sessions name reg = none →
      (get_session_by_name name reg true fuel st).1 = GetOutcome.fuelOut
      ∧ (get_session_by_name name reg true fuel st).2.pollSleeps = st.pollSleeps + fuel
      ∧ (get_session_by_name name reg true fuel st).2.sessions = st.sessions
      ∧ (get_session_by_name name reg true fuel st).2.queue = st.queue := by
  intro fuel
  induction fuel with
  | zero =>
    intro st hq hf
    exact ⟨rfl, by simp [get_session_by_name], rfl, rfl⟩
  | succ fuel ih =>
    intro st hq hf
    have hstep : get_session_by_name name reg true (fuel + 1) st =
        get_session_by_name name reg true fuel { st with pollSleeps := st.pollSleeps + 1 } := by
      rw [get_session_by_name]
      rw [drainQueue_empty st hq, hf]
      rfl
    rw [hstep]
    obtain ⟨h1, h2, h3, h4⟩ := ih { st with pollSleeps := st.pollSleeps + 1 } hq hf
    refine ⟨h1, ?_, h3, h4⟩
    rw [h2]
    simp only []
    omega

/-- C7: with the pending queue empty and no handle in the live registry
carrying the directory's correlation id for `name` (in particular when
`name` has no directory entry at all), the non-blocking call raises the
typed "session not found" error at once leaving the store untouched — no
sleep of any kind — while the blocking variant never raises and never
returns: it sleeps one fixed interval per poll, indefinitely. -/
theorem get_session_not_found_behaviour (name : String) (reg : Registry) (st : MsfStore)
    (fuel : Nat)
    (hq : st.queue = none ∨ st.queue = some [])
    (hno : ∀ kv, kv ∈ reg → ∀ uuid, pyDictGet st.sessions name = some uuid → kv.2 ≠ uuid) :
    (get_session_by_name name reg false (fuel + 1) st).1 =
        GetOutcome.raised ("Session (" ++ name ++ ") not found")
    ∧ (get_session_by_name name reg false (fuel + 1) st).2 = st
    ∧ (∀ f, (get_session_by_name name reg true f st).1 = GetOutcome.fuelOut
        ∧ (get_session_by_name name reg true f st).2.pollSleeps = st.pollSleeps + f) := by
  have hf : findHandle st.sessions name reg = none := findHandle_none _ _ _ hno
  have hstep : get_session_by_name name reg false (fuel + 1) st =
      (GetOutcome.raised ("Session (" ++ name ++ ") not found"), st) := by
    rw [get_session_by_name]
    rw [drainQueue_empty st hq, hf]
    rfl
  refine ⟨by rw [hstep], by rw [hstep], ?_⟩
  intro f
  obtain ⟨h1, h2, h3, h4⟩ := get_session_block_polls name reg f st hq hf
  exact ⟨h1, h2⟩

/-- C10: a non-blocking lookup that fails is not atomic: the pending
entries are first drained into the directory — one stabilization sleep
each — and that merge survives the raised "session not found" error. -/
theorem get_session_merge_survives_raise (name : String) (reg : Registry) (st : MsfStore)
    (fuel : Nat) (items : List (String × String))
    (hq : st.queue = some items)
    (hno : ∀ kv, kv ∈ reg → ∀ uuid,
      pyDictGet (mergeSessions st.sessions items) name = some uuid → kv.2 ≠ uuid) :
    (get_session_by_name name reg false (fuel + 1) st).1 =
        GetOutcome.raised ("Session (" ++ name ++ ") not found")
    ∧ (get_session_by_name name reg false (fuel + 1) st).2.sessions =
        mergeSessions st.sessions items
    ∧ (get_session_by_name name reg false (fuel + 1) st).2.queue = some []
    ∧ (get_session_by_name name reg false (fuel + 1) st).2.waitSleeps =
        st.waitSleeps + items.length := by
  have hdq : drainQueue st =
      { st with
          sessions := mergeSessions st.sessions items,
          queue := some [],
          waitSleeps := st.waitSleeps + items.length } := by
    rw [drainQueue, hq]
  have hf : findHandle (drainQueue st).sessions name reg = none := by
    rw [hdq]
    exact findHandle_none _ _ _ hno
  have hstep : get_session_by_name name reg false (fuel + 1) st =
      (GetOutcome.raised ("Session (" ++ name ++ ") not found"), drainQueue st) := by
    rw [get_session_by_name]
    rw [hf]
    rfl
  rw [hstep, hdq]
  exact ⟨rfl, rfl, rfl, rfl⟩

/-- A terminating `wait_for_session` call always ends by handing the
matched handle to `add_or_queue_session`, and the match carries the
requested uuid. -/
theorem wait_for_session_done (regs : Nat → Registry) (name uuid : String)
    (queue : Option (List (String × String))) :
    ∀ fuel i (st : MsfStore) sid u q' st',
      wait_for_session regs name uuid queue fuel i st = (WaitOutcome.done sid u, q', st') →
      u = uuid ∧ (q', st') = add_or_queue_session st name uuid queue sid := by
  intro fuel
  induction fuel with
  | zero =>
    intro i st sid u q' st' h
    exact absurd h (by simp [wait_for_session])
  | succ fuel ih =>
    intro i st sid u q' st' h
    rw [wait_for_session] at h
    by_cases hlen : 0 < (regs i).length
    · rw [if_pos hlen] at h
      cases hfind : (regs i).find? (fun kv => kv.2 == uuid) with
      | some kv =>
        rw [hfind] at h
        simp only [Prod.mk.injEq, WaitOutcome.done.injEq] at h
        obtain ⟨⟨hsid, hu⟩, hrest⟩ := h
        subst hsid
        exact ⟨hu.symm, hrest.symm⟩
      | none =>
        rw [hfind] at h
        exact ih (i + 1) st sid u q' st' h
    · rw [if_neg hlen] at h
      exact ih (i + 1) st sid u q' st' h

/-- A terminating `wait_for_increased_aux` loop likewise ends in
`add_or_queue_session`, with the newly appeared handle's uuid. -/
theorem wait_for_increased_aux_done (regs : Nat → Registry) (name : String)
    (queue : Option (List (String × String))) (len0 : Nat) (ids0 : List String) :
    ∀ fuel i (st : MsfStore) sid u q' st',
      wait_for_increased_aux regs name queue len0 ids0 fuel i st =
        (WaitOutcome.done sid u, q', st') →
      (q', st') = add_or_queue_session st name u queue sid := by
  intro fuel
  induction fuel with
  | zero =>
    intro i st sid u q' st' h
    exact absurd h (by simp [wait_for_increased_aux])
  | succ fuel ih =>
    intro i st sid u q' st' h
    rw [wait_for_increased_aux] at h
    by_cases hlen : len0 < (regs i).length
    · rw [if_pos hlen] at h
      cases hfind : (regs i).find? (fun kv => !(ids0.contains kv.1)) with
      | some kv =>
        rw [hfind] at h
        simp only [Prod.mk.injEq, WaitOutcome.done.injEq] at h
        obtain ⟨⟨hsid, hu⟩, hrest⟩ := h
        subst hsid; subst hu
        exact hrest.symm
      | none =>
        rw [hfind] at h
        exact ih (i + 1) st sid u q' st' h
    · rw [if_neg hlen] at h
      exact ih (i + 1) st sid u q' st' h

/-- C8: a `wait_for_session` or `wait_for_increased_session` call that was
supplied a queue and finds a matching live session only pushes the
`(name, correlation-id)` pair onto that queue: the local directory, the
variable store and the sleep counters are untouched (the whole store state
is unchanged).  Only the no-queue path registers the association in the
directory, publishes the `LAST_MSF_SESSION` variable, and takes the
stabilization sleep. -/
theorem wait_with_queue_defers_merge :
    (∀ regs name uuid q fuel i (st : MsfStore) sid u q' st',
      wait_for_session regs name uuid (some q) fuel i st = (WaitOutcome.done sid u, q', st') →
      q' = some (q ++ [(name, uuid)]) ∧ st' = st)
    ∧ (∀ regs name uuid q fuel (st : MsfStore) sid u q' st',
      wait_for_increased_session regs name uuid (some q) fuel st =
        (WaitOutcome.done sid u, q', st') →
      q' = some (q ++ [(name, u)]) ∧ st' = st)
    ∧ (∀ regs name uuid fuel i (st : MsfStore) sid u q' st',
      wait_for_session regs name uuid none fuel i st = (WaitOutcome.done sid u, q', st') →
      q' = none
      ∧ st'.sessions = pyDictSet st.sessions name uuid
      ∧ st'.varSets = st.varSets ++ [("LAST_MSF_SESSION", sid)]
      ∧ st'.stabSleeps = st.stabSleeps + 1) := by
  refine ⟨?_, ?_, ?_⟩
  · intro regs name uuid q fuel i st sid u q' st' h
    obtain ⟨hu, heq⟩ := wait_for_session_done regs name uuid (some q) fuel i st sid u q' st' h
    rw [add_or_queue_session] at heq
    simp only [Prod.mk.injEq] at heq
    exact ⟨heq.1, heq.2⟩
  · intro regs name uuid q fuel st sid u q' st' h
    have heq := wait_for_increased_aux_done regs name (some q) (regs 0).length
      ((regs 0).map Prod.fst) fuel 0 st sid u q' st' h
    rw [add_or_queue_session] at heq
    simp only [Prod.mk.injEq] at heq
    exact ⟨heq.1, heq.2⟩
  · intro regs name uuid fuel i st sid u q' st' h
    obtain ⟨hu, heq⟩ := wait_for_session_done regs name uuid none fuel i st sid u q' st' h
    rw [add_or_queue_session] at heq
    simp only [Prod.mk.injEq] at heq
    obtain ⟨h1, h2⟩ := heq
    refine ⟨h1, ?_, ?_, ?_⟩ <;> rw [h2]

/-! ### `replace_variables` — substitution over an explicit dict heap

The original command must not be mutated, so the mutable parts (the dict
attributes Python passes by reference) are modelled with an explicit heap:
a command field is an immutable string, a reference into the heap, or an
opaque value of another shape.  `copy.deepcopy` allocates fresh cells;
mutation of an existing cell would show up as a changed `heapGet`. -/

inductive PyVal where
  | vstr (s : String)
  | vother (tag : Nat)
deriving DecidableEq

abbrev DictObj := List (String × PyVal)

inductive Field where
  | fstr (s : String)
  | fdict (ref : Nat)
  | fother (tag : Nat)
deriving DecidableEq

/-- The dict heap: cell `i` holds the i-th allocated dict; allocation
appends, existing cells are never written by the code under study. -/
abbrev Heap := List DictObj

structure CommandObj where
  fields : List (String × Field)
  templateVars : List String
deriving DecidableEq

def heapGet (h : Heap) (r : Nat) : DictObj := h.getD r []

def Field.refLt (bound : Nat) : Field → Bool
  | Field.fdict r => decide (r < bound)
  | _ => true

def Field.refGe (bound : Nat) : Field → Bool
  | Field.fdict r => decide (bound ≤ r)
  | _ => true

/-- The dict part of `copy.deepcopy(command)`: each dict attribute is
copied into a fresh heap cell; string and opaque attributes carry over. -/
def deepcopyFields : Heap → List (String × Field) → Heap × List (String × Field)
  | h, [] => (h, [])
  | h, (k, Field.fdict r) :: rest =>
    let copied := deepcopyFields (h ++ [heapGet h r]) rest
    (copied.1, (k, Field.fdict h.length) :: copied.2)
  | h, (k, f) :: rest =>
    let copied := deepcopyFields h rest
    (copied.1, (k, f) :: copied.2)

/-- The in-place loop over the fresh dict copy: substitute every text
value, leave keys and non-text values alone. -/
def substDict (subst : String → String) (d : DictObj) : DictObj :=
  d.map (fun kv =>
    match kv.2 with
    | PyVal.vstr s => (kv.1, PyVal.vstr (subst s))
    | v => (kv.1, v))

/-- The member loop of `replace_variables`: for each declared template
member, read the attribute from the ORIGINAL command; a string is
substituted, a dict is deep-copied and substituted into a fresh cell,
other shapes are skipped; the result is `setattr` on the copy. -/
def replaceLoop (subst : String → String) (orig : CommandObj) :
    List String → Heap → List (String × Field) → Heap × List (String × Field)
  | [], h, tf => (h, tf)
  | m :: ms, h, tf =>
    match pyDictGet orig.fields m with
    | some (Field.fstr s) =>
      replaceLoop subst orig ms h (pyDictSet tf m (Field.fstr (subst s)))
    | some (Field.fdict r) =>
      replaceLoop subst orig ms (h ++ [substDict subst (heapGet h r)])
        (pyDictSet tf m (Field.fdict h.length))
    | _ => replaceLoop subst orig ms h tf

/-- `BaseExecutor.replace_variables`: deep-copy the command, then run the
member loop against the original's attributes; the original command value
and the heap cells it references are left untouched. -/
def replace_variables (subst : String → String) (c : CommandObj) (h : Heap) :
    Heap × CommandObj :=
  let copied := deepcopyFields h c.fields
  let looped := replaceLoop subst c c.templateVars copied.1 copied.2
  (looped.1, { fields := looped.2, templateVars := c.templateVars })

/-! Heap access lemmas. -/

theorem heapGet_append_left : ∀ (h ext : Heap) (r : Nat), r < h.length →
    heapGet (h ++ ext) r = heapGet h r := by
  intro h ext
  induction h with
  | nil => intro r hr; simp at hr
  | cons a t ih =>
    intro r hr
    cases r with
    | zero => rfl
    | succ r => exact ih r (by simpa using hr)

theorem heapGet_append_self : ∀ (h : Heap) (x : DictObj),
    heapGet (h ++ [x]) h.length = x := by
  intro h x
  induction h with
  | nil => rfl
  | cons a t ih => simpa using ih

theorem pyDictGet_mem {α : Type} : ∀ (d : List (String × α)) (k : String) (v : α),
    pyDictGet d k = some v → (k, v) ∈ d := by
  intro d
  induction d with
  | nil => intro k v h; simp [pyDictGet] at h
  | cons hd tl ih =>
    intro k v h
    obtain ⟨k1, v1⟩ := hd
    by_cases hk : k1 = k
    · rw [pyDictGet, if_pos hk] at h
      injection h with h
      subst hk; subst h
      exact List.mem_cons_self _ _
    · rw [pyDictGet, if_neg hk] at h
      exact List.mem_cons_of_mem _ (ih k v h)

theorem Field.refGe_mono {f : Field} {b b' : Nat} (hb : b' ≤ b)
    (h : f.refGe b = true) : f.refGe b' = true := by
  cases f with
  | fdict r => simp [Field.refGe] at h ⊢; omega
  | fstr s => rfl
  | fother t => rfl

/-- `substDict` never touches keys. -/
theorem substDict_keys (subst : String → String) (d : DictObj) :
    (substDict subst d).map Prod.fst = d.map Prod.fst := by
  induction d with
  | nil => rfl
  | cons hd tl ih =>
    obtain ⟨k, v⟩ := hd
    cases v with
    | vstr s => simpa [substDict] using ih
    | vother t => simpa [substDict] using ih

/-- `substDict` value-wise: text values substituted, others unchanged. -/
theorem substDict_get (subst : String → String) (d : DictObj) (k : String) :
    pyDictGet (substDict subst d) k =
      (pyDictGet d k).map (fun v =>
        match v with
        | PyVal.vstr s => PyVal.vstr (subst s)
        | v => v) := by
  induction d with
  | nil => rfl
  | cons hd tl ih =>
    obtain ⟨k1, v1⟩ := hd
    by_cases hk : k1 = k
    · cases v1 with
      | vstr s => simp [substDict, pyDictGet, hk]
      | vother t => simp [substDict, pyDictGet, hk]
    · cases v1 with
      | vstr s => simpa [substDict, pyDictGet, hk] using ih
      | vother t => simpa [substDict, pyDictGet, hk] using ih

theorem deepcopyFields_heap_extend : ∀ (fs : List (String × Field)) (h : Heap),
    ∃ ext, (deepcopyFields h fs).1 = h ++ ext := by
  intro fs
  induction fs with
  | nil => intro h; exact ⟨[], by simp [deepcopyFields]⟩
  | cons hd rest ih =>
    obtain ⟨k, f⟩ := hd
    intro h
    cases f with
    | fstr s =>
      obtain ⟨ext, hext⟩ := ih h
      exact ⟨ext, by simp only [deepcopyFields]; exact hext⟩
    | fdict r =>
      obtain ⟨ext, hext⟩ := ih (h ++ [heapGet h r])
      refine ⟨[heapGet h r] ++ ext, ?_⟩
      simp only [deepcopyFields]
      rw [hext]
      simp
    | fother t =>
      obtain ⟨ext, hext⟩ := ih h
      exact ⟨ext, by simp only [deepcopyFields]; exact hext⟩

theorem replaceLoop_heap_extend (subst : String → String) (orig : CommandObj) :
    ∀ (ms : List String) (h : Heap) (tf : List (String × Field)),
      ∃ ext, (replaceLoop subst orig ms h tf).1 = h ++ ext := by
  intro ms
  induction ms with
  | nil => intro h tf; exact ⟨[], by simp [replaceLoop]⟩
  | cons m ms ih =>
    intro h tf
    cases hg : pyDictGet orig.fields m with
    | none =>
      obtain ⟨ext, hext⟩ := ih h tf
      exact ⟨ext, by simp only [replaceLoop, hg]; exact hext⟩
    | some f =>
      cases f with
      | fstr s =>
        obtain ⟨ext, hext⟩ := ih h (pyDictSet tf m (Field.fstr (subst s)))
        exact ⟨ext, by simp only [replaceLoop, hg]; exact hext⟩
      | fdict r =>
        obtain ⟨ext, hext⟩ := ih (h ++ [substDict subst (heapGet h r)])
          (pyDictSet tf m (Field.fdict h.length))
        refine ⟨[substDict subst (heapGet h r)] ++ ext, ?_⟩
        simp only [replaceLoop, hg]
        rw [hext]
        simp
      | fother t =>
        obtain ⟨ext, hext⟩ := ih h tf
        exact ⟨ext, by simp only [replaceLoop, hg]; exact hext⟩

theorem deepcopyFields_refGe : ∀ (fs : List (String × Field)) (h : Heap),
    ∀ kv ∈ (deepcopyFields h fs).2, Field.refGe h.length kv.2 = true := by
  intro fs
  induction fs with
  | nil => intro h kv hkv; simp [deepcopyFields] at hkv
  | cons hd rest ih =>
    obtain ⟨k, f⟩ := hd
    intro h kv hkv
    cases f with
    | fstr s =>
      simp only [deepcopyFields, List.mem_cons] at hkv
      rcases hkv with hkv | hkv
      · subst hkv; rfl
      · exact ih h kv hkv
    | fdict r =>
      simp only [deepcopyFields, List.mem_cons] at hkv
      rcases hkv with hkv | hkv
      · subst hkv; simp [Field.refGe]
      · exact Field.refGe_mono (by simp) (ih (h ++ [heapGet h r]) kv hkv)
    | fother t =>
      simp only [deepcopyFields, List.mem_cons] at hkv
      rcases hkv with hkv | hkv
      · subst hkv; rfl
      · exact ih h kv hkv

theorem replaceLoop_refGe (subst : String → String) (orig : CommandObj) (N : Nat) :
    ∀ (ms : List String) (h : Heap) (tf : List (String × Field)),
      (∀ kv ∈ tf, Field.refGe N kv.2 = true) → N ≤ h.length →
      ∀ kv ∈ (replaceLoop subst orig ms h tf).2, Field.refGe N kv.2 = true := by
  intro ms
  induction ms with
  | nil =>
    intro h tf htf hN kv hkv
    simp only [replaceLoop] at hkv
    exact htf kv hkv
  | cons m ms ih =>
    intro h tf htf hN kv hkv
    cases hg : pyDictGet orig.fields m with
    | none =>
      simp only [replaceLoop, hg] at hkv
      exact ih h tf htf hN kv hkv
    | some f =>
      cases f with
      | fstr s =>
        simp only [replaceLoop, hg] at hkv
        refine ih h (pyDictSet tf m (Field.fstr (subst s))) ?_ hN kv hkv
        intro kv2 hkv2
        rcases pyDictSet_mem hkv2 with h2 | h2
        · rw [h2]; rfl
        · exact htf kv2 h2
      | fdict r =>
        simp only [replaceLoop, hg] at hkv
        refine ih (h ++ [substDict subst (heapGet h r)])
          (pyDictSet tf m (Field.fdict h.length)) ?_ (by simp; omega) kv hkv
        intro kv2 hkv2
        rcases pyDictSet_mem hkv2 with h2 | h2
        · rw [h2]; simp [Field.refGe]; omega
        · exact htf kv2 h2
      | fother t =>
        simp only [replaceLoop, hg] at hkv
        exact ih h tf htf hN kv hkv

theorem replaceLoop_lookup_not_mem (subst : String → String) (orig : CommandObj) :
    ∀ (ms : List String) (h : Heap) (tf : List (String × Field)) (m : String), m ∉ ms →
      pyDictGet (replaceLoop subst orig ms h tf).2 m = pyDictGet tf m := by
  intro ms
  induction ms with
  | nil => intro h tf m _; simp [replaceLoop]
  | cons m' ms ih =>
    intro h tf m hm
    have hne : m ≠ m' := fun hc => hm (hc ▸ List.mem_cons_self _ _)
    have hnm : m ∉ ms := fun hc => hm (List.mem_cons_of_mem _ hc)
    cases hg : pyDictGet orig.fields m' with
    | none => simp only [replaceLoop, hg]; exact ih h tf m hnm
    | some f =>
      cases f with
      | fstr s =>
        simp only [replaceLoop, hg]
        rw [ih h _ m hnm]
        exact pyDictGet_set_ne tf m' m _ hne
      | fdict r =>
        simp only [replaceLoop, hg]
        rw [ih _ _ m hnm]
        exact pyDictGet_set_ne tf m' m _ hne
      | fother t =>
        simp only [replaceLoop, hg]
        exact ih h tf m hnm

theorem replaceLoop_lookup_str (subst : String → String) (orig : CommandObj) :
    ∀ (ms : List String) (h : Heap) (tf : List (String × Field)) (m s : String),
      ms.Nodup → m ∈ ms → pyDictGet orig.fields m = some (Field.fstr s) →
      pyDictGet (replaceLoop subst orig ms h tf).2 m = some (Field.fstr (subst s)) := by
  intro ms
  induction ms with
  | nil => intro h tf m s _ hm; exact absurd hm (List.not_mem_nil m)
  | cons m' ms ih =>
    intro h tf m s hnd hm hg
    by_cases hme : m = m'
    · subst hme
      have hnm : m ∉ ms := (List.nodup_cons.mp hnd).1
      simp only [replaceLoop, hg]
      rw [replaceLoop_lookup_not_mem subst orig ms h _ m hnm]
      exact pyDictGet_set_self tf m _
    · have hm2 : m ∈ ms := by
        rcases List.mem_cons.mp hm with hc | hc
        · exact absurd hc hme
        · exact hc
      have hnd2 : ms.Nodup := (List.nodup_cons.mp hnd).2
      cases hg' : pyDictGet orig.fields m' with
      | none => simp only [replaceLoop, hg']; exact ih h tf m s hnd2 hm2 hg
      | some f =>
        cases f with
        | fstr s' => simp only [replaceLoop, hg']; exact ih h _ m s hnd2 hm2 hg
        | fdict r => simp only [replaceLoop, hg']; exact ih _ _ m s hnd2 hm2 hg
        | fother t => simp only [replaceLoop, hg']; exact ih h tf m s hnd2 hm2 hg

theorem replaceLoop_lookup_other (subst : String → String) (orig : CommandObj) :
    ∀ (ms : List String) (h : Heap) (tf : List (String × Field)) (m : String) (t : Nat),
      ms.Nodup → pyDictGet orig.fields m = some (Field.fother t) →
      pyDictGet (replaceLoop subst orig ms h tf).2 m = pyDictGet tf m := by
  intro ms
  induction ms with
  | nil => intro h tf m t _ _; simp [replaceLoop]
  | cons m' ms ih =>
    intro h tf m t hnd hg
    have hnd2 : ms.Nodup := (List.nodup_cons.mp hnd).2
    by_cases hme : m = m'
    · subst hme
      simp only [replaceLoop, hg]
      exact ih h tf m t hnd2 hg
    · cases hg' : pyDictGet orig.fields m' with
      | none => simp only [replaceLoop, hg']; exact ih h tf m t hnd2 hg
      | some f =>
        cases f with
        | fstr s' =>
          simp only [replaceLoop, hg']
          rw [ih h _ m t hnd2 hg]
          exact pyDictGet_set_ne tf m' m _ hme
        | fdict r =>
          simp only [replaceLoop, hg']
          rw [ih _ _ m t hnd2 hg]
          exact pyDictGet_set_ne tf m' m _ hme
        | fother t' => simp only [replaceLoop, hg']; exact ih h tf m t hnd2 hg

theorem replaceLoop_lookup_dict (subst : String → String) (orig : CommandObj) :
    ∀ (ms : List String) (h : Heap) (tf : List (String × Field)) (m : String) (r : Nat),
      ms.Nodup → m ∈ ms → pyDictGet orig.fields m = some (Field.fdict r) →
      r < h.length →
      ∃ r', pyDictGet (replaceLoop subst orig ms h tf).2 m = some (Field.fdict r')
        ∧ h.length ≤ r'
        ∧ heapGet (replaceLoop subst orig ms h tf).1 r' = substDict subst (heapGet h r) := by
  intro ms
  induction ms with
  | nil => intro h tf m r _ hm; exact absurd hm (List.not_mem_nil m)
  | cons m' ms ih =>
    intro h tf m r hnd hm hg hr
    have hnd2 : ms.Nodup := (List.nodup_cons.mp hnd).2
    by_cases hme : m = m'
    · subst hme
      have hnm : m ∉ ms := (List.nodup_cons.mp hnd).1
      simp only [replaceLoop, hg]
      refine ⟨h.length, ?_, le_rfl, ?_⟩
      · rw [replaceLoop_lookup_not_mem subst orig ms _ _ m hnm]
        exact pyDictGet_set_self tf m _
      · obtain ⟨ext, hext⟩ := replaceLoop_heap_extend subst orig ms
          (h ++ [substDict subst (heapGet h r)]) (pyDictSet tf m (Field.fdict h.length))
        rw [hext]
        rw [heapGet_append_left (h ++ [substDict subst (heapGet h r)]) ext h.length (by simp)]
        exact heapGet_append_self h _
    · have hm2 : m ∈ ms := by
        rcases List.mem_cons.mp hm with hc | hc
        · exact absurd hc hme
        · exact hc
      cases hg' : pyDictGet orig.fields m' with
      | none => simp only [replaceLoop, hg']; exact ih h tf m r hnd2 hm2 hg hr
      | some f =>
        cases f with
        | fstr s' => simp only [replaceLoop, hg']; exact ih h _ m r hnd2 hm2 hg hr
        | fdict r2 =>
          simp only [replaceLoop, hg']
          obtain ⟨r', h1, h2, h3⟩ := ih (h ++ [substDict subst (heapGet h r2)])
            (pyDictSet tf m' (Field.fdict h.length)) m r hnd2 hm2 hg
            (by simp; omega)
          refine ⟨r', h1, by simp at h2; omega, ?_⟩
          rw [h3, heapGet_append_left h _ r hr]
        | fother t => simp only [replaceLoop, hg']; exact ih h tf m r hnd2 hm2 hg hr

/-- The deep copy preserves every attribute lookup: string and opaque
attributes verbatim, dict attributes through a fresh cell holding an
equal dict. -/
theorem deepcopyFields_lookup : ∀ (fs : List (String × Field)) (h : Heap) (m : String),
    (∀ s, pyDictGet fs m = some (Field.fstr s) →
      pyDictGet (deepcopyFields h fs).2 m = some (Field.fstr s))
    ∧ (∀ t, pyDictGet fs m = some (Field.fother t) →
      pyDictGet (deepcopyFields h fs).2 m = some (Field.fother t))
    ∧ (∀ r, pyDictGet fs m = some (Field.fdict r) → r < h.length →
      ∃ r', pyDictGet (deepcopyFields h fs).2 m = some (Field.fdict r')
        ∧ h.length ≤ r' ∧ r' < (deepcopyFields h fs).1.length
        ∧ heapGet (deepcopyFields h fs).1 r' = heapGet h r) := by
  intro fs
  induction fs with
  | nil =>
    intro h m
    refine ⟨?_, ?_, ?_⟩ <;> intro x hx <;> simp [pyDictGet] at hx
  | cons hd rest ih =>
    obtain ⟨k, f⟩ := hd
    intro h m
    by_cases hk : k = m
    · subst hk
      cases f with
      | fstr s0 =>
        refine ⟨?_, ?_, ?_⟩
        · intro s hs
          rw [pyDictGet, if_pos rfl] at hs
          simp only [deepcopyFields, pyDictGet, if_pos rfl]
          exact hs
        · intro t ht
          rw [pyDictGet, if_pos rfl] at ht
          exact absurd ht (by simp)
        · intro r hr
          rw [pyDictGet, if_pos rfl] at hr
          exact absurd hr (by simp)
      | fother t0 =>
        refine ⟨?_, ?_, ?_⟩
        · intro s hs
          rw [pyDictGet, if_pos rfl] at hs
          exact absurd hs (by simp)
        · intro t ht
          rw [pyDictGet, if_pos rfl] at ht
          simp only [deepcopyFields, pyDictGet, if_pos rfl]
          exact ht
        · intro r hr
          rw [pyDictGet, if_pos rfl] at hr
          exact absurd hr (by simp)
      | fdict r0 =>
        refine ⟨?_, ?_, ?_⟩
        · intro s hs
          rw [pyDictGet, if_pos rfl] at hs
          exact absurd hs (by simp)
        · intro t ht
          rw [pyDictGet, if_pos rfl] at ht
          exact absurd ht (by simp)
        · intro r hr hlt
          rw [pyDictGet, if_pos rfl] at hr
          have hr0 : r0 = r := by
            injection hr with hinj
            injection hinj
          subst hr0
          obtain ⟨ext, hext⟩ := deepcopyFields_heap_extend rest (h ++ [heapGet h r0])
          refine ⟨h.length, ?_, le_rfl, ?_, ?_⟩
          · simp [deepcopyFields, pyDictGet]
          · simp only [deepcopyFields]
            rw [hext]
            simp
          · simp only [deepcopyFields]
            rw [hext]
            rw [heapGet_append_left (h ++ [heapGet h r0]) ext h.length (by simp)]
            exact heapGet_append_self h _
    · cases f with
      | fstr s0 =>
        obtain ⟨ih1, ih2, ih3⟩ := ih h m
        refine ⟨?_, ?_, ?_⟩
        · intro s hs
          rw [pyDictGet, if_neg hk] at hs
          simp only [deepcopyFields, pyDictGet, if_neg hk]
          exact ih1 s hs
        · intro t ht
          rw [pyDictGet, if_neg hk] at ht
          simp only [deepcopyFields, pyDictGet, if_neg hk]
          exact ih2 t ht
        · intro r hr hlt
          rw [pyDictGet, if_neg hk] at hr
          simp only [deepcopyFields, pyDictGet, if_neg hk]
          exact ih3 r hr hlt
      | fother t0 =>
        obtain ⟨ih1, ih2, ih3⟩ := ih h m
        refine ⟨?_, ?_, ?_⟩
        · intro s hs
          rw [pyDictGet, if_neg hk] at hs
          simp only [deepcopyFields, pyDictGet, if_neg hk]
          exact ih1 s hs
        · intro t ht
          rw [pyDictGet, if_neg hk] at ht
          simp only [deepcopyFields, pyDictGet, if_neg hk]
          exact ih2 t ht
        · intro r hr hlt
          rw [pyDictGet, if_neg hk] at hr
          simp only [deepcopyFields, pyDictGet, if_neg hk]
          exact ih3 r hr hlt
      | fdict r0 =>
        obtain ⟨ih1, ih2, ih3⟩ := ih (h ++ [heapGet h r0]) m
        refine ⟨?_, ?_, ?_⟩
        · intro s hs
          rw [pyDictGet, if_neg hk] at hs
          simp only [deepcopyFields, pyDictGet, if_neg hk]
          exact ih1 s hs
        · intro t ht
          rw [pyDictGet, if_neg hk] at ht
          simp only [deepcopyFields, pyDictGet, if_neg hk]
          exact ih2 t ht
        · intro r hr hlt
          rw [pyDictGet, if_neg hk] at hr
          obtain ⟨r', h1, h2, h3, h4⟩ := ih3 r hr (by simp; omega)
          refine ⟨r', ?_, by simp at h2; omega, ?_, ?_⟩
          · simp only [deepcopyFields, pyDictGet, if_neg hk]
            exact h1
          · simp only [deepcopyFields]
            exact h3
          · simp only [deepcopyFields]
            rw [h4, heapGet_append_left h _ r hlt]

/-- C3: `replace_variables` never mutates the original command.  The
original `CommandObj` is a value, and every heap cell that existed before
the call is unchanged afterwards (frame property); the returned copy
references only freshly allocated cells, so it is structurally
independent; on the copy, text-valued eligible members are substituted,
dict-valued eligible members point to a cell holding the value-wise
substituted dict (keys unchanged — `substDict` rewrites values only), and
members of other shapes, as well as all non-eligible members, carry over
value-equal. -/
theorem replace_variables_no_mutation (subst : String → String) (c : CommandObj)
    (h : Heap)
    (hwf : ∀ kv ∈ c.fields, Field.refLt h.length kv.2 = true)
    (hnd : c.templateVars.Nodup) :
    (∀ i, i < h.length → heapGet (replace_variables subst c h).1 i = heapGet h i)
    ∧ (∀ kv ∈ (replace_variables subst c h).2.fields, Field.refGe h.length kv.2 = true)
    ∧ (replace_variables subst c h).2.templateVars = c.templateVars
    ∧ (∀ m s, m ∈ c.templateVars → pyDictGet c.fields m = some (Field.fstr s) →
        pyDictGet (replace_variables subst c h).2.fields m = some (Field.fstr (subst s)))
    ∧ (∀ m t, m ∈ c.templateVars → pyDictGet c.fields m = some (Field.fother t) →
        pyDictGet (replace_variables subst c h).2.fields m = some (Field.fother t))
    ∧ (∀ m r, m ∈ c.templateVars → pyDictGet c.fields m = some (Field.fdict r) →
        ∃ r', pyDictGet (replace_variables subst c h).2.fields m = some (Field.fdict r')
          ∧ h.length ≤ r'
          ∧ heapGet (replace_variables subst c h).1 r' = substDict subst (heapGet h r))
    ∧ (∀ m s, m ∉ c.templateVars → pyDictGet c.fields m = some (Field.fstr s) →
        pyDictGet (replace_variables subst c h).2.fields m = some (Field.fstr s))
    ∧ (∀ m t, m ∉ c.templateVars → pyDictGet c.fields m = some (Field.fother t) →
        pyDictGet (replace_variables subst c h).2.fields m = some (Field.fother t))
    ∧ (∀ m r, m ∉ c.templateVars → pyDictGet c.fields m = some (Field.fdict r) →
        ∃ r', pyDictGet (replace_variables subst c h).2.fields m = some (Field.fdict r')
          ∧ h.length ≤ r'
          ∧ heapGet (replace_variables subst c h).1 r' = heapGet h r) := by
  obtain ⟨ext1, hext1⟩ := deepcopyFields_heap_extend c.fields h
  obtain ⟨ext2, hext2⟩ := replaceLoop_heap_extend subst c c.templateVars
    (deepcopyFields h c.fields).1 (deepcopyFields h c.fields).2
  have hrw1 : (replace_variables subst c h).1 =
      (replaceLoop subst c c.templateVars (deepcopyFields h c.fields).1
        (deepcopyFields h c.fields).2).1 := rfl
  have hrw2 : (replace_variables subst c h).2.fields =
      (replaceLoop subst c c.templateVars (deepcopyFields h c.fields).1
        (deepcopyFields h c.fields).2).2 := rfl
  refine ⟨?_, ?_, rfl, ?_, ?_, ?_, ?_, ?_, ?_⟩
  · intro i hi
    rw [hrw1, hext2, hext1, List.append_assoc]
    exact heapGet_append_left h _ i hi
  · intro kv hkv
    rw [hrw2] at hkv
    refine replaceLoop_refGe subst c h.length c.templateVars _ _ ?_ ?_ kv hkv
    · exact deepcopyFields_refGe c.fields h
    · rw [hext1]; simp
  · intro m s hm hg
    rw [hrw2]
    exact replaceLoop_lookup_str subst c c.templateVars _ _ m s hnd hm hg
  · intro m t hm hg
    rw [hrw2, replaceLoop_lookup_other subst c c.templateVars _ _ m t hnd hg]
    exact (deepcopyFields_lookup c.fields h m).2.1 t hg
  · intro m r hm hg
    have hrlt : r < h.length := by
      have := hwf _ (pyDictGet_mem c.fields m _ hg)
      simpa [Field.refLt] using this
    obtain ⟨r', h1, h2, h3⟩ := replaceLoop_lookup_dict subst c c.templateVars
      (deepcopyFields h c.fields).1 (deepcopyFields h c.fields).2 m r hnd hm hg
      (by rw [hext1]; simp; omega)
    refine ⟨r', by rw [hrw2]; exact h1, ?_, ?_⟩
    · have hlen : h.length ≤ (deepcopyFields h c.fields).1.length := by
        rw [hext1]; simp
      omega
    · rw [hrw1, h3, hext1, heapGet_append_left h ext1 r hrlt]
  · intro m s hm hg
    rw [hrw2, replaceLoop_lookup_not_mem subst c c.templateVars _ _ m hm]
    exact (deepcopyFields_lookup c.fields h m).1 s hg
  · intro m t hm hg
    rw [hrw2, replaceLoop_lookup_not_mem subst c c.templateVars _ _ m hm]
    exact (deepcopyFields_lookup c.fields h m).2.1 t hg
  · intro m r hm hg
    have hrlt : r < h.length := by
      have := hwf _ (pyDictGet_mem c.fields m _ hg)
      simpa [Field.refLt] using this
    obtain ⟨r', h1, h2, h3, h4⟩ := (deepcopyFields_lookup c.fields h m).2.2 r hg hrlt
    refine ⟨r', ?_, h2, ?_⟩
    · rw [hrw2, replaceLoop_lookup_not_mem subst c c.templateVars _ _ m hm]
      exact h1
    · rw [hrw1, hext2, heapGet_append_left _ ext2 r' h3, h4]

/-! ### Concrete witnesses -/

theorem loopIf_matching_retry_bound_witness :
    (run envC1 cmdC1 10).1 = Outcome.exited ExitReason.loopIfExhausted
    ∧ (run envC1 cmdC1 10).2.primCalls = 3
    ∧ (run envC1 cmdC1 10).2.loopEvals = 3 := by
  have h := loopIf_matching_retry_bound envC1 cmdC1 "PEND" 3 10 rfl rfl (by decide)
    (fun k _ => ⟨by show ¬((0 : Int) ≠ 0 ∧ false = true); decide,
      fun q hq => Option.noConfusion hq, fun q hq => Option.noConfusion hq,
      by show ("PEND" == "PEND") = true; decide⟩) (by decide)
  exact ⟨h.1, h.2.1, h.2.2.1⟩

def envW2 : Env :=
  { research := fun _ _ => true, prim := fun _ => Except.ok ⟨"all FAIL here", 0⟩ }

def cmdW2 : BaseCommand :=
  { cmd := "check", save := none, exit_on_error := false, error_if := some "FAIL",
    error_if_not := none, loop_if := some "FAIL", loop_if_not := none, loop_count := "3" }

theorem error_if_preempts_loop_witness :
    ((exec envW2 cmdW2 (4 + 1) initSt).1 = Outcome.exited ExitReason.exitOnError
      ∨ (exec envW2 cmdW2 (4 + 1) initSt).1 = Outcome.exited ExitReason.errorIf)
    ∧ (exec envW2 cmdW2 (4 + 1) initSt).2.loopEvals = initSt.loopEvals := by
  have h := error_if_preempts_loop envW2 cmdW2 4 initSt "FAIL" "FAIL" rfl (by decide)
    rfl (by decide)
  exact ⟨h.1, h.2.1⟩

def substW : String → String := fun s => s ++ "!"

def cW : CommandObj :=
  { fields := [("cmd", Field.fstr "run $X"), ("headers", Field.fdict 0),
      ("count", Field.fother 7)],
    templateVars := ["cmd", "headers"] }

def hW : Heap := [[("a", PyVal.vstr "v"), ("b", PyVal.vother 1)]]

theorem replace_variables_no_mutation_witness :
    heapGet (replace_variables substW cW hW).1 0 = heapGet hW 0
    ∧ pyDictGet (replace_variables substW cW hW).2.fields "cmd" =
        some (Field.fstr (substW "run $X")) := by
  have h := replace_variables_no_mutation substW cW hW (by decide) (by decide)
  exact ⟨h.1 0 (by decide), h.2.2.2.1 "cmd" "run $X" (by decide) (by decide)⟩

def envW4 : Env :=
  { research := fun _ _ => false, prim := fun _ => Except.error "boom" }

def cmdW4 : BaseCommand :=
  { cmd := "x", save := none, exit_on_error := false, error_if := none,
    error_if_not := none, loop_if := none, loop_if_not := none, loop_count := "1" }

theorem exec_converts_ExecException_witness :
    exec envW4 cmdW4 (3 + 1) initSt =
      classifyAux envW4 cmdW4 ⟨"boom", 1⟩ (exec envW4 cmdW4 3)
        { initSt with primCalls := initSt.primCalls + 1 } :=
  (exec_converts_ExecException envW4 cmdW4 3 initSt "boom" ⟨"", 0⟩).1 rfl

def cmdW5 : BaseCommand :=
  { cmd := "x", save := none, exit_on_error := false, error_if := none,
    error_if_not := none, loop_if := some "PEND", loop_if_not := none, loop_count := "abc" }

theorem nonnumeric_loop_count_raises_witness :
    (exec envC1 cmdW5 (2 + 1) initSt).1 =
      Outcome.raised ("Variable loop_count has not a numeric value: " ++ cmdW5.loop_count)
    ∧ (exec envC1 cmdW5 (2 + 1) initSt).2.retrySleeps = initSt.retrySleeps := by
  have h := nonnumeric_loop_count_raises envC1 cmdW5 2 initSt (by decide)
    (fun q hq => Option.noConfusion hq) (fun q hq => Option.noConfusion hq)
    (Or.inl (by decide)) (by decide)
  exact ⟨h.1, h.2.1⟩

def envW6 : Env :=
  { research := fun _ _ => false, prim := fun _ => Except.ok ⟨"fail", 2⟩ }

def cmdW6 : BaseCommand :=
  { cmd := "x", save := none, exit_on_error := true, error_if := none,
    error_if_not := none, loop_if := none, loop_if_not := none, loop_count := "1" }

theorem exit_on_error_terminates_immediately_witness :
    exec envW6 cmdW6 (1 + 1) initSt =
      (Outcome.exited ExitReason.exitOnError, { initSt with primCalls := initSt.primCalls + 1 }) :=
  (exit_on_error_terminates_immediately envW6 cmdW6 1 initSt (by decide) rfl).1

def stW7 : MsfStore :=
  { sessions := [("beacon1", "u1")], queue := none, varSets := [],
    waitSleeps := 0, pollSleeps := 0, stabSleeps := 0 }

def regW7 : Registry := [("1", "u2")]

theorem get_session_not_found_witness :
    (get_session_by_name "beacon1" regW7 false (0 + 1) stW7).1 =
      GetOutcome.raised ("Session (" ++ "beacon1" ++ ") not found")
    ∧ (get_session_by_name "beacon1" regW7 false (0 + 1) stW7).2 = stW7 := by
  have h := get_session_not_found_behaviour "beacon1" regW7 stW7 0 (Or.inl rfl)
    (by
      intro kv hkv uuid huuid
      simp [stW7, pyDictGet] at huuid
      simp [regW7] at hkv
      subst hkv
      rw [← huuid]
      decide)
  exact ⟨h.1, h.2.1⟩

def regsW8 : Nat → Registry := fun _ => [("5", "uX")]

def stW8 : MsfStore :=
  { sessions := [], queue := some [], varSets := [],
    waitSleeps := 0, pollSleeps := 0, stabSleeps := 0 }

theorem wait_with_queue_defers_merge_witness :
    (some [("n", "uX")] : Option (List (String × String))) = some ([] ++ [("n", "uX")])
    ∧ stW8 = stW8 :=
  wait_with_queue_defers_merge.1 regsW8 "n" "uX" [] 1 0 stW8 "5" "uX"
    (some [("n", "uX")]) stW8 (by decide)

def cmdW9 : BaseCommand :=
  { cmd := "check", save := none, exit_on_error := false, error_if := none,
    error_if_not := none, loop_if := some "PEND", loop_if_not := none, loop_count := "1" }

theorem loop_count_low_single_invocation_witness :
    (run envC1 cmdW9 (5 + 1)).1 = Outcome.exited ExitReason.loopIfExhausted
    ∧ (run envC1 cmdW9 (5 + 1)).2.primCalls = 1 := by
  have h := loop_count_low_single_invocation envC1 cmdW9 "PEND" 1 5 rfl rfl (by decide)
    ⟨by decide, fun q hq => Option.noConfusion hq,
      fun q hq => Option.noConfusion hq, by decide⟩
  exact ⟨h.1, h.2.1⟩

def stW10 : MsfStore :=
  { sessions := [], queue := some [("beacon1", "u1")], varSets := [],
    waitSleeps := 0, pollSleeps := 0, stabSleeps := 0 }

theorem get_session_merge_survives_raise_witness :
    (get_session_by_name "beacon1" regW7 false (0 + 1) stW10).1 =
      GetOutcome.raised ("Session (" ++ "beacon1" ++ ") not found")
    ∧ (get_session_by_name "beacon1" regW7 false (0 + 1) stW10).2.sessions =
        mergeSessions stW10.sessions [("beacon1", "u1")] := by
  have h := get_session_merge_survives_raise "beacon1" regW7 stW10 0 [("beacon1", "u1")] rfl
    (by
      intro kv hkv uuid huuid
      simp [stW10, mergeSessions, pyDictSet, pyDictGet] at huuid
      simp [regW7] at hkv
      subst hkv
      rw [← huuid]
      decide)
  exact ⟨h.1, h.2.1⟩

end AttackMate
